import Mathlib

/-!
Shallow embedding of `src/shiftguard.py` (class `ShiftGuard`): the shift
allocation engine `generate_schedule`, its helpers `_can_assign_shift` and
`_update_state`, and the risk evaluator `_check_labor_risks`.

Modelling conventions:
* Calendar dates of the target month are the naturals `1 .. days`
  (`List.range' 1 days`); the Python `d - timedelta(days=1)` becomes `d - 1`.
* The weekend/holiday test `_is_weekend_or_holiday` is an opaque-to-the-engine
  parameter `isWH : Nat → Bool` (in the code it consults the weekday and the
  external `jpholiday` table).
* A staff member's `shifts` dict is the function `Nat → Option ShiftType`
  (`none` = key absent).  The code only ever creates keys for dates of the
  target month, so iterating `sorted(state['shifts'].keys())` is modelled as
  iterating the month dates, keeping those whose entry is set.
* Python float shift-hour arithmetic is modelled by exact rationals.
* Warnings keep severity and code; the numbers interpolated into the Python
  message/evidence strings are kept in the `info` list (names are omitted).
-/

namespace ShiftGuard

/-- The three shift values the code writes into `state['shifts']`. -/
inductive ShiftType
  | DAY
  | NIGHT
  | OFF
deriving DecidableEq, Repr

/-- Warning severities used by the code. -/
inductive Severity
  | RED
  | YELLOW
  | GREEN
deriving DecidableEq, Repr

/-- The warning codes appended to `self.warnings`. -/
inductive WarnCode
  | INSUFFICIENT_CAPACITY_BASE
  | INSUFFICIENT_CAPACITY_PEAK
  | SOLO_SHIFT_DAY
  | SOLO_SHIFT_NIGHT
  | UNDERSTAFFED_DAY
  | UNDERSTAFFED_NIGHT
  | REQUESTED_OFF_VIOLATION
  | EXCESSIVE_CONSECUTIVE
  | HIGH_CONSECUTIVE
  | INSUFFICIENT_REST
  | EXCESSIVE_OVERTIME
  | HIGH_OVERTIME
  | WEEKEND_RESTRICTION
  | ALL_CLEAR
deriving DecidableEq, Repr

/-- A warning record: severity, code, and the numeric data the Python code
interpolates into the message/evidence strings (dates, required/actual
counts); staff names are omitted. -/
structure Warning where
  severity : Severity
  code : WarnCode
  info : List Nat
deriving DecidableEq, Repr

/-- One row of the `staff` sheet, after the excluded I/O layer has parsed it
(`requested_off_dates` already split into a date list). -/
structure StaffRow where
  staff_id : Nat
  name : String
  desired_days : Nat
  can_day : Bool
  can_night : Bool
  can_weekend_holiday : Bool
  requested_off : List Nat
deriving DecidableEq, Repr

/-- The `config` sheet fields read by `generate_schedule`.
`max_consecutive_workdays` is read into a local variable by
`_check_labor_risks` (line 373) but never used afterwards. -/
structure Config where
  min_staff_day : Nat
  min_staff_night : Nat
  variable_extra_slots_month : Nat
  allow_solo_day : Bool
  allow_solo_night : Bool
  max_consecutive_workdays : Nat
  standard_day_shift_hours : ℚ
  standard_night_shift_hours : ℚ
deriving Repr

/-- The thresholds `_check_labor_risks` reads from `rules.yml`. -/
structure Rules where
  max_consecutive_yellow : Nat
  max_consecutive_red : Nat
  max_overtime_yellow : ℚ
  max_overtime_red : ℚ
  standard_month_hours : ℚ
deriving Repr

/-! ### Variable-extra-slot distribution (`generate_schedule` lines 130-149)

`distLoop` is the `while extra_distributed < variable_extra` loop.  The
accumulator records, in order, the date receiving each distributed slot, so
`daily_demand[d]` is the number of occurrences of `d` in the result. -/

/-- The body of the `while extra_distributed < variable_extra` loop.
`W`/`D` are `weekend_dates`/`weekday_dates`; `extra` is `extra_distributed`
and `cycle` is `cycle_index`.  `fuel` bounds the number of loop iterations:
every executed iteration either exits the loop or increases `extra` by at
least one, and the loop only runs while `extra < ve`, so `ve` iterations
always suffice (`distLoop_congr` below makes this formal); recursion on
`fuel` keeps the function kernel-reducible. -/
def distLoop (W D : List Nat) (ve : Nat) :
    (fuel extra cycle : Nat) → List Nat → List Nat
  | 0, _, _, acc => acc
  | fuel + 1, extra, cycle, acc =>
    if extra < ve then
      if 0 < W.length then
        let acc1 := acc ++ [W.getD (cycle % W.length) 0]
        if extra + 1 < ve then
          if W.length * 2 ≤ cycle + 1 then
            if 0 < D.length then
              distLoop W D ve fuel (extra + 2) (cycle + 1)
                (acc1 ++ [D.getD ((extra + 1) % D.length) 0])
            else acc1
          else distLoop W D ve fuel (extra + 1) (cycle + 1) acc1
        else acc1
      else
        if 0 < D.length then
          distLoop W D ve fuel (extra + 1) cycle
            (acc ++ [D.getD (extra % D.length) 0])
        else acc
    else acc

/-- The full distribution run: the list of dates that received the
`variable_extra` slots, in distribution order. -/
def distributeSlots (W D : List Nat) (ve : Nat) : List Nat :=
  distLoop W D ve ve 0 0 []

/-- `daily_demand` as a function: how many extra slots date `d` received. -/
def dailyDemand (isWH : Nat → Bool) (days : Nat) (ve : Nat) : Nat → Nat :=
  let dates := List.range' 1 days
  let W := dates.filter isWH
  let D := dates.filter (fun d => !isWH d)
  fun d => (distributeSlots W D ve).count d

/-! ### Staff state (`generate_schedule` lines 154-184) -/

/-- The per-staff mutable record `staff_state[staff_id]`. -/
structure StaffState where
  name : String
  desired_days : Nat
  can_day : Bool
  can_night : Bool
  can_weekend_holiday : Bool
  requested_off : List Nat
  assigned_days : Nat
  last_shift_date : Option Nat
  last_shift_type : Option ShiftType
  consecutive_days : Nat
  shifts : Nat → Option ShiftType

/-- The fresh state built for one roster row (lines 166-178). -/
def initState (r : StaffRow) : StaffState :=
  { name := r.name
    desired_days := r.desired_days
    can_day := r.can_day
    can_night := r.can_night
    can_weekend_holiday := r.can_weekend_holiday
    requested_off := r.requested_off
    assigned_days := 0
    last_shift_date := none
    last_shift_type := none
    consecutive_days := 0
    shifts := fun _ => none }

/-- `staff_state` is a Python dict keyed by `staff_id`; a dict preserves
insertion order, so it is modelled as an association list. -/
abbrev StateMap := List (Nat × StaffState)

/-- Building `staff_state` from the roster rows (lines 156-178).  A repeated
`staff_id` overwrites the stored record in place, as Python dict assignment
does (keeping the original insertion position). -/
def buildStates (roster : List StaffRow) : StateMap :=
  roster.foldl
    (fun acc r =>
      if acc.any (fun p => p.1 == r.staff_id) then
        acc.map (fun p => if p.1 == r.staff_id then (p.1, initState r) else p)
      else acc ++ [(r.staff_id, initState r)])
    []

/-- `state['shifts'][d] = t`. -/
def setShift (st : StaffState) (d : Nat) (t : ShiftType) : StaffState :=
  { st with shifts := fun e => if e = d then some t else st.shifts e }

/-- Phase 1 (lines 180-184): pre-mark every requested-off date of the month
as OFF. -/
def seedOff (days : Nat) (st : StaffState) : StaffState :=
  (List.range' 1 days).foldl
    (fun s d => if d ∈ s.requested_off then setShift s d ShiftType.OFF else s) st

/-- Dict lookup `staff_state[staff_id]` (first entry with the key; keys are
unique by construction). -/
def stateOf (ss : StateMap) (id : Nat) : Option StaffState :=
  (ss.find? (fun p => p.1 == id)).map (fun p => p.2)

/-! ### Rest-rule gate and state update (lines 324-360) -/

/-- `_can_assign_shift`: the only blocking rule is DAY immediately after a
NIGHT; everything else is allowed. -/
def canAssignShift (st : StaffState) (d : Nat) (t : ShiftType) : Bool :=
  match st.last_shift_date with
  | none => true
  | some _ =>
    match st.shifts (d - 1) with
    | none => true
    | some prev => !(prev == ShiftType.NIGHT && t == ShiftType.DAY)

/-- `_update_state`: record last shift and recompute the consecutive-workday
streak. -/
def updateState (st : StaffState) (d : Nat) (t : ShiftType) : StaffState :=
  let s := { st with last_shift_date := some d, last_shift_type := some t }
  if t = ShiftType.OFF then { s with consecutive_days := 0 }
  else
    match s.shifts (d - 1) with
    | some p =>
      if p = ShiftType.OFF then { s with consecutive_days := 1 }
      else { s with consecutive_days := s.consecutive_days + 1 }
    | none => { s with consecutive_days := 1 }

/-! ### Phase 2: one date's allocation (lines 186-282) -/

/-- `shortage` priority key (lines 199-206): staff furthest below their
desired days first; a +1000 penalty if the date is weekend/holiday and the
staff member lacks `can_weekend_holiday`. -/
def priorityKey (whToday : Bool) (st : StaffState) : Int :=
  ((st.assigned_days : Int) - (st.desired_days : Int)) +
    (if whToday && !st.can_weekend_holiday then 1000 else 0)

/-- Stable insertion used to model Python's stable `list.sort(key=...)`:
`x` is placed after every already-placed element whose key is `≤ key x`. -/
def insertSorted (key : Nat → Int) (x : Nat) : List Nat → List Nat
  | [] => [x]
  | y :: ys => if key y ≤ key x then y :: insertSorted key x ys else x :: y :: ys

/-- Stable ascending sort by key (Python `list.sort` is stable). -/
def sortStable (key : Nat → Int) (l : List Nat) : List Nat :=
  l.foldl (fun acc x => insertSorted key x acc) []

/-- Capability flag consulted by the DAY (`can_day`) and NIGHT (`can_night`)
fill loops. -/
def canWork (t : ShiftType) (st : StaffState) : Bool :=
  match t with
  | ShiftType.DAY => st.can_day
  | ShiftType.NIGHT => st.can_night
  | ShiftType.OFF => false

/-- The four statements run on a successful assignment (lines 223-226 /
237-240): set the shift, bump `assigned_days`, then `_update_state`. -/
def assignUpd (d : Nat) (t : ShiftType) (st : StaffState) : StaffState :=
  updateState { setShift st d t with assigned_days := st.assigned_days + 1 } d t

/-- Apply the assignment statements to the staff member `id` in the dict. -/
def assignTo (ss : StateMap) (id : Nat) (d : Nat) (t : ShiftType) : StateMap :=
  ss.map (fun p => if p.1 == id then (p.1, assignUpd d t p.2) else p)

/-- One fill loop (`for staff_id in available_staff`), covering both the
day fill (`skip = []`) and the night fill (`skip = day_assigned`).
Stops when `target` staff have been assigned; otherwise assigns `t` to each
eligible staff member in priority order. -/
def fillShift (t : ShiftType) (d target : Nat) (skip : List Nat)
    (ss : StateMap) (order : List Nat) (assigned : List Nat) :
    StateMap × List Nat :=
  match order with
  | [] => (ss, assigned)
  | id :: rest =>
    if id ∈ skip then fillShift t d target skip ss rest assigned
    else if target ≤ assigned.length then (ss, assigned)
    else
      match stateOf ss id with
      | none => fillShift t d target skip ss rest assigned
      | some st =>
        if canWork t st && decide (st.assigned_days < st.desired_days) &&
            canAssignShift st d t then
          fillShift t d target skip (assignTo ss id d t) rest (assigned ++ [id])
        else fillShift t d target skip ss rest assigned

/-- The understaffing / solo-shift warnings for one date (lines 242-282). -/
def dateWarnings (cfg : Config) (d minDayToday minNightToday dayCount nightCount : Nat) :
    List Warning :=
  (if dayCount < minDayToday then
    if dayCount == 1 && cfg.allow_solo_day then
      [{ severity := Severity.YELLOW, code := WarnCode.SOLO_SHIFT_DAY, info := [d] }]
    else
      [{ severity := Severity.RED, code := WarnCode.UNDERSTAFFED_DAY,
         info := [minDayToday, dayCount, d] }]
  else []) ++
  (if nightCount < minNightToday then
    if nightCount == 1 && cfg.allow_solo_night then
      [{ severity := Severity.YELLOW, code := WarnCode.SOLO_SHIFT_NIGHT, info := [d] }]
    else
      [{ severity := Severity.RED, code := WarnCode.UNDERSTAFFED_NIGHT,
         info := [minNightToday, nightCount, d] }]
  else [])

/-- Phase-2 body for one date (lines 187-282): collect the non-OFF staff in
dict order, sort them by priority, run the day fill then the night fill,
then append the understaffing warnings. -/
def processDate (cfg : Config) (isWH : Nat → Bool) (demand : Nat → Nat) (d : Nat)
    (ssw : StateMap × List Warning) : StateMap × List Warning :=
  let ss := ssw.1
  let whToday := isWH d
  let available := (ss.filter (fun p => p.2.shifts d ≠ some ShiftType.OFF)).map
    (fun p => p.1)
  let key : Nat → Int := fun id =>
    match stateOf ss id with
    | some st => priorityKey whToday st
    | none => 0
  let order := sortStable key available
  let extra := demand d
  let minDayToday := cfg.min_staff_day + extra / 2
  let minNightToday := cfg.min_staff_night + (extra - extra / 2)
  let day := fillShift ShiftType.DAY d minDayToday [] ss order []
  let night := fillShift ShiftType.NIGHT d minNightToday day.2 day.1 order []
  (night.1,
    ssw.2 ++ dateWarnings cfg d minDayToday minNightToday day.2.length night.2.length)

/-! ### Phase 4 and flattening (lines 284-299) -/

/-- Phase 4: every month date not yet set becomes OFF. -/
def fillOffAll (days : Nat) (st : StaffState) : StaffState :=
  (List.range' 1 days).foldl
    (fun s d => if s.shifts d = none then setShift s d ShiftType.OFF else s) st

/-- One output row of `self.schedule`. -/
structure ScheduleEntry where
  date : Nat
  shift_type : ShiftType
  staff_id : Nat
  name : String
deriving DecidableEq, Repr

/-- The rows one staff member contributes: their set shifts in ascending
date order (dict keys are always month dates, so iterating
`sorted(state['shifts'].keys())` is iterating the month dates that are set). -/
def entriesFor (days : Nat) (p : Nat × StaffState) : List ScheduleEntry :=
  (List.range' 1 days).filterMap (fun d =>
    match p.2.shifts d with
    | some t => some { date := d, shift_type := t, staff_id := p.1, name := p.2.name }
    | none => none)

/-- Flattening `self.schedule` (lines 291-299): staff in dict order, dates
ascending. -/
def flatten (days : Nat) (ss : StateMap) : List ScheduleEntry :=
  (ss.map (entriesFor days)).flatten

/-! ### Supply check (lines 87-121) -/

/-- The capacity warnings emitted before allocation (lines 104-118);
`info` keeps the two counts from the message. -/
def capacityWarnings (cfg : Config) (days : Nat) (roster : List StaffRow) :
    List Warning :=
  let baseSlots := (cfg.min_staff_day + cfg.min_staff_night) * days
  let totalSlots := baseSlots + cfg.variable_extra_slots_month
  let supply := (roster.map (fun r => r.desired_days)).sum
  if supply < baseSlots then
    [{ severity := Severity.RED, code := WarnCode.INSUFFICIENT_CAPACITY_BASE,
       info := [baseSlots, supply] }]
  else if supply < totalSlots then
    [{ severity := Severity.YELLOW, code := WarnCode.INSUFFICIENT_CAPACITY_PEAK,
       info := [totalSlots, supply] }]
  else []

/-! ### Risk evaluator `_check_labor_risks` (lines 362-471) -/

/-- Check 1 (lines 379-387): requested-off dates whose set shift is not OFF. -/
def reqOffWarnings (st : StaffState) : List Warning :=
  st.requested_off.filterMap (fun d =>
    match st.shifts d with
    | some s =>
      if s = ShiftType.OFF then none
      else some { severity := Severity.RED,
                  code := WarnCode.REQUESTED_OFF_VIOLATION, info := [d] }
    | none => none)

/-- Check 2's scan (lines 390-397): the longest run of consecutive set
non-OFF dates. -/
def maxRunScan (days : Nat) (st : StaffState) : Nat :=
  ((List.range' 1 days).foldl
    (fun (p : Nat × Nat) d =>
      match st.shifts d with
      | none => p
      | some s =>
        if s = ShiftType.OFF then (0, p.2) else (p.1 + 1, max p.2 (p.1 + 1)))
    (0, 0)).2

/-- Check 2's warnings (lines 399-412): strict comparison against the red
threshold first, then the yellow one. -/
def consecWarnings (rules : Rules) (maxFound : Nat) : List Warning :=
  if rules.max_consecutive_red < maxFound then
    [{ severity := Severity.RED, code := WarnCode.EXCESSIVE_CONSECUTIVE,
       info := [maxFound, rules.max_consecutive_red] }]
  else if rules.max_consecutive_yellow < maxFound then
    [{ severity := Severity.YELLOW, code := WarnCode.HIGH_CONSECUTIVE,
       info := [maxFound, rules.max_consecutive_yellow] }]
  else []

/-- The ascending list of set non-OFF dates (line 415). -/
def workedDates (days : Nat) (st : StaffState) : List Nat :=
  (List.range' 1 days).filter (fun d =>
    match st.shifts d with
    | some s => s ≠ ShiftType.OFF
    | none => false)

/-- Check 3 (lines 414-427): NIGHT followed one calendar day later by DAY
among chronologically adjacent worked dates. -/
def restWarnings (days : Nat) (st : StaffState) : List Warning :=
  ((workedDates days st).zip (workedDates days st).tail).filterMap (fun q =>
    if st.shifts q.1 = some ShiftType.NIGHT ∧ st.shifts q.2 = some ShiftType.DAY ∧
        q.2 = q.1 + 1 then
      some { severity := Severity.RED, code := WarnCode.INSUFFICIENT_REST,
             info := [q.1, q.2] }
    else none)

/-- Check 4's estimate (lines 429-436): day/night shift counts times the
standard hours, overtime clipped at zero. -/
def overtimeEstimate (rules : Rules) (cfg : Config) (days : Nat) (st : StaffState) :
    ℚ :=
  let dayShifts := ((List.range' 1 days).filter
    (fun d => st.shifts d = some ShiftType.DAY)).length
  let nightShifts := ((List.range' 1 days).filter
    (fun d => st.shifts d = some ShiftType.NIGHT)).length
  max 0 ((dayShifts : ℚ) * cfg.standard_day_shift_hours +
    (nightShifts : ℚ) * cfg.standard_night_shift_hours - rules.standard_month_hours)

/-- Check 4's warnings (lines 438-451): strict comparison, red first. -/
def overtimeWarnings (rules : Rules) (ot : ℚ) : List Warning :=
  if rules.max_overtime_red < ot then
    [{ severity := Severity.RED, code := WarnCode.EXCESSIVE_OVERTIME, info := [] }]
  else if rules.max_overtime_yellow < ot then
    [{ severity := Severity.YELLOW, code := WarnCode.HIGH_OVERTIME, info := [] }]
  else []

/-- Check 5 (lines 453-462): weekend/holiday work by staff lacking
`can_weekend_holiday`, one warning per offending date. -/
def weekendWarnings (isWH : Nat → Bool) (days : Nat) (st : StaffState) :
    List Warning :=
  if st.can_weekend_holiday then []
  else
    (List.range' 1 days).filterMap (fun d =>
      match st.shifts d with
      | some s =>
        if s ≠ ShiftType.OFF ∧ isWH d then
          some { severity := Severity.YELLOW,
                 code := WarnCode.WEEKEND_RESTRICTION, info := [d] }
        else none
      | none => none)

/-- All five checks for one staff member, in source order. -/
def staffRisks (rules : Rules) (cfg : Config) (isWH : Nat → Bool) (days : Nat)
    (st : StaffState) : List Warning :=
  reqOffWarnings st ++ consecWarnings rules (maxRunScan days st) ++
    restWarnings days st ++
    overtimeWarnings rules (overtimeEstimate rules cfg days st) ++
    weekendWarnings isWH days st

/-- `_check_labor_risks` over every staff member, with the GREEN `ALL_CLEAR`
fallback (lines 464-471). -/
def checkLaborRisks (rules : Rules) (cfg : Config) (isWH : Nat → Bool) (days : Nat)
    (ss : StateMap) (warn : List Warning) : List Warning :=
  let w := warn ++ (ss.map (fun p => staffRisks rules cfg isWH days p.2)).flatten
  if w = [] then
    [{ severity := Severity.GREEN, code := WarnCode.ALL_CLEAR, info := [] }]
  else w

/-! ### `generate_schedule` end to end -/

/-- The allocation state after the supply check, phase 1, and phase 2
restricted to the first `k` dates of the month (so `k = days` is the full
phase-2 run).  Exposing the prefix lets invariants be stated at every point
during allocation. -/
def allocAfter (cfg : Config) (isWH : Nat → Bool) (days : Nat)
    (roster : List StaffRow) (k : Nat) : StateMap × List Warning :=
  let demand := dailyDemand isWH days cfg.variable_extra_slots_month
  let ss0 := (buildStates roster).map (fun p => (p.1, seedOff days p.2))
  (List.range' 1 k).foldl (fun acc d => processDate cfg isWH demand d acc)
    (ss0, capacityWarnings cfg days roster)

/-- The outputs of one `generate_schedule` run. -/
structure GenResult where
  states : StateMap
  schedule : List ScheduleEntry
  warnings : List Warning

/-- `generate_schedule`: supply check, demand distribution, phases 1-2 over
every month date, phase 4, flattening, then `_check_labor_risks`. -/
def generateSchedule (rules : Rules) (cfg : Config) (isWH : Nat → Bool)
    (days : Nat) (roster : List StaffRow) : GenResult :=
  let run := allocAfter cfg isWH days roster days
  let ssFull := run.1.map (fun p => (p.1, fillOffAll days p.2))
  { states := ssFull
    schedule := flatten days ssFull
    warnings := checkLaborRisks rules cfg isWH days ssFull run.2 }

/-! ### Invariant vocabulary used by the verification -/

/-- Whether a stored shift value is actual work (DAY or NIGHT). -/
def isWorkShift (o : Option ShiftType) : Bool :=
  match o with
  | some ShiftType.DAY => true
  | some ShiftType.NIGHT => true
  | _ => false

/-- The number of month dates on which a staff member works. -/
def workCount (days : Nat) (st : StaffState) : Nat :=
  ((List.range' 1 days).filter (fun d => isWorkShift (st.shifts d))).length

/-- The requested-off list of the staff member `id` ([] if absent). -/
def requestedOf (ss : StateMap) (id : Nat) : List Nat :=
  match stateOf ss id with
  | some st => st.requested_off
  | none => []

/-- The stored shift of staff member `id` on date `d`. -/
def shiftOf (ss : StateMap) (id : Nat) (d : Nat) : Option ShiftType :=
  match stateOf ss id with
  | some st => st.shifts d
  | none => none

/-- The `assigned_days` counter of staff member `id` (0 if absent). -/
def assignedOf (ss : StateMap) (id : Nat) : Nat :=
  match stateOf ss id with
  | some st => st.assigned_days
  | none => 0

/-- The `desired_days` of staff member `id` (0 if absent). -/
def desiredOf (ss : StateMap) (id : Nat) : Nat :=
  match stateOf ss id with
  | some st => st.desired_days
  | none => 0

/-- The number of month dates staff member `id` works (0 if absent). -/
def workOf (days : Nat) (ss : StateMap) (id : Nat) : Nat :=
  match stateOf ss id with
  | some st => workCount days st
  | none => 0

/-- The `consecutive_days` streak counter of staff member `id` (0 if absent). -/
def consecutiveOf (ss : StateMap) (id : Nat) : Nat :=
  match stateOf ss id with
  | some st => st.consecutive_days
  | none => 0

/-- The allocation invariant for one staff state, parameterised by the next
date `k` still to be processed: dates from `k` on are unset or requested-off
OFF; requested-off month dates are OFF; no NIGHT is followed by a DAY on the
next date; a staff member with no recorded last shift has no work anywhere;
`assigned_days` counts the worked dates and stays within `desired_days`;
no key exists outside the month. -/
structure GoodS (days k : Nat) (st : StaffState) : Prop where
  future : ∀ e, k ≤ e → st.shifts e = none ∨ st.shifts e = some ShiftType.OFF
  reqOff : ∀ d, d ∈ st.requested_off → 1 ≤ d → d ≤ days →
    st.shifts d = some ShiftType.OFF
  noNightDay : ∀ d, st.shifts d = some ShiftType.NIGHT →
    st.shifts (d + 1) ≠ some ShiftType.DAY
  lastNone : st.last_shift_date = none → ∀ d, isWorkShift (st.shifts d) = false
  counter : st.assigned_days = workCount days st
  bounds : st.assigned_days ≤ st.desired_days
  inRange : ∀ e, e = 0 ∨ days < e → st.shifts e = none

/-! ## Lemmas about the slot distribution -/

/-- Once `extra` has reached `ve` the loop body never runs. -/
lemma distLoop_done (W D : List Nat) (ve : Nat) :
    ∀ fuel extra cycle acc, ve ≤ extra →
      distLoop W D ve fuel extra cycle acc = acc := by
  intro fuel extra cycle acc h
  cases fuel with
  | zero => rfl
  | succ f => simp [distLoop, Nat.not_lt.mpr h]

/-- Fuel irrelevance: any fuel covering the remaining `ve - extra` slots
produces the same result, so `fuel = ve` in `distributeSlots` is faithful to
the unbounded Python `while` loop. -/
lemma distLoop_congr (W D : List Nat) (ve : Nat) :
    ∀ f1 f2 extra cycle acc, ve ≤ extra + f1 → ve ≤ extra + f2 →
      distLoop W D ve f1 extra cycle acc = distLoop W D ve f2 extra cycle acc := by
  intro f1
  induction f1 with
  | zero =>
    intro f2 extra cycle acc h1 h2
    rw [distLoop_done W D ve 0 extra cycle acc (by omega),
      distLoop_done W D ve f2 extra cycle acc (by omega)]
  | succ f ih =>
    intro f2 extra cycle acc h1 h2
    by_cases hlt : extra < ve
    · cases f2 with
      | zero => omega
      | succ g =>
        simp only [distLoop, if_pos hlt]
        by_cases hW : 0 < W.length
        · simp only [if_pos hW]
          by_cases h1lt : extra + 1 < ve
          · simp only [if_pos h1lt]
            by_cases hsp : W.length * 2 ≤ cycle + 1
            · simp only [if_pos hsp]
              by_cases hD : 0 < D.length
              · simp only [if_pos hD]
                exact ih g (extra + 2) (cycle + 1) _ (by omega) (by omega)
              · simp only [if_neg hD]
            · simp only [if_neg hsp]
              exact ih g (extra + 1) (cycle + 1) _ (by omega) (by omega)
          · simp only [if_neg h1lt]
        · simp only [if_neg hW]
          by_cases hD : 0 < D.length
          · simp only [if_pos hD]
            exact ih g (extra + 1) cycle _ (by omega) (by omega)
          · simp only [if_neg hD]
    · rw [distLoop_done W D ve (f + 1) extra cycle acc (by omega),
        distLoop_done W D ve f2 extra cycle acc (by omega)]

/-- While at most `2 * |W|` slots are requested the loop stays in its
weekend phase: `cycle` tracks `extra` and every slot goes to the weekend
cycle. -/
lemma distLoop_weekend (W D : List Nat) (ve : Nat) (hW : 0 < W.length) :
    ∀ n fuel extra acc, ve = extra + n → n ≤ fuel → extra + n ≤ 2 * W.length →
      distLoop W D ve fuel extra extra acc =
        acc ++ (List.range' extra n).map (fun i => W.getD (i % W.length) 0) := by
  intro n
  induction n with
  | zero =>
    intro fuel extra acc hve _ _
    simp [distLoop_done W D ve fuel extra extra acc (by omega)]
  | succ n ih =>
    intro fuel extra acc hve hfuel hbound
    obtain ⟨f, rfl⟩ : ∃ f, fuel = f + 1 := ⟨fuel - 1, by omega⟩
    have hlt : extra < ve := by omega
    simp only [distLoop, if_pos hlt, if_pos hW]
    by_cases h1lt : extra + 1 < ve
    · have hn1 : 1 ≤ n := by omega
      have hsp : ¬ W.length * 2 ≤ extra + 1 := by omega
      simp only [if_pos h1lt, if_neg hsp]
      rw [ih f (extra + 1) _ (by omega) (by omega) (by omega)]
      rw [List.range'_succ, List.map_cons, List.append_assoc,
        List.singleton_append]
    · have hn0 : n = 0 := by omega
      subst hn0
      simp only [if_neg h1lt, List.range'_succ, List.range'_zero,
        List.map_cons, List.map_nil]

/-- With at most two weekend cycles' worth of slots, the whole distribution
is the weekend cycle truncated to `ve`. -/
lemma distributeSlots_weekend (W D : List Nat) (ve : Nat) (hW : 0 < W.length)
    (hve : ve ≤ 2 * W.length) :
    distributeSlots W D ve =
      (List.range' 0 ve).map (fun i => W.getD (i % W.length) 0) := by
  have := distLoop_weekend W D ve hW ve ve 0 [] (by omega) (le_refl ve) (by omega)
  simpa [distributeSlots] using this

/-- When the weekday list is nonempty the loop never exits early: every one
of the `ve` slots is distributed. -/
lemma distLoop_length_weekday (W D : List Nat) (ve : Nat) (hD : 0 < D.length) :
    ∀ fuel extra cycle acc, ve ≤ extra + fuel →
      (distLoop W D ve fuel extra cycle acc).length = acc.length + (ve - extra) := by
  intro fuel
  induction fuel with
  | zero =>
    intro extra cycle acc h
    rw [distLoop_done W D ve 0 extra cycle acc (by omega)]
    omega
  | succ f ih =>
    intro extra cycle acc h
    by_cases hlt : extra < ve
    · simp only [distLoop, if_pos hlt]
      by_cases hW : 0 < W.length
      · simp only [if_pos hW]
        by_cases h1lt : extra + 1 < ve
        · simp only [if_pos h1lt]
          by_cases hsp : W.length * 2 ≤ cycle + 1
          · simp only [if_pos hsp, if_pos hD]
            rw [ih (extra + 2) (cycle + 1) _ (by omega)]
            simp only [List.length_append, List.length_singleton]
            omega
          · simp only [if_neg hsp]
            rw [ih (extra + 1) (cycle + 1) _ (by omega)]
            simp only [List.length_append, List.length_singleton]
            omega
        · simp only [if_neg h1lt, List.length_append, List.length_singleton]
          omega
      · simp only [if_neg hW, if_pos hD]
        rw [ih (extra + 1) cycle _ (by omega)]
        simp only [List.length_append, List.length_singleton]
        omega
    · rw [distLoop_done W D ve (f + 1) extra cycle acc (by omega)]
      omega

/-- With no weekday dates but a nonempty weekend list, the loop breaks as
soon as `cycle` completes two weekend rounds: exactly
`min (ve - extra) (2|W| - cycle)` further slots are distributed. -/
lemma distLoop_length_no_weekday (W : List Nat) (ve : Nat) (hW : 0 < W.length) :
    ∀ fuel extra cycle acc, ve ≤ extra + fuel → cycle < 2 * W.length →
      (distLoop W [] ve fuel extra cycle acc).length =
        acc.length + min (ve - extra) (2 * W.length - cycle) := by
  intro fuel
  induction fuel with
  | zero =>
    intro extra cycle acc h hc
    rw [distLoop_done W [] ve 0 extra cycle acc (by omega)]
    omega
  | succ f ih =>
    intro extra cycle acc h hc
    by_cases hlt : extra < ve
    · simp only [distLoop, if_pos hlt, if_pos hW]
      by_cases h1lt : extra + 1 < ve
      · simp only [if_pos h1lt]
        by_cases hsp : W.length * 2 ≤ cycle + 1
        · have hD : ¬ (0 < ([] : List Nat).length) := by simp
          simp only [if_pos hsp, if_neg hD, List.length_append,
            List.length_singleton]
          omega
        · simp only [if_neg hsp]
          rw [ih (extra + 1) (cycle + 1) _ (by omega) (by omega)]
          simp only [List.length_append, List.length_singleton]
          omega
      · simp only [if_neg h1lt, List.length_append, List.length_singleton]
        omega
    · rw [distLoop_done W [] ve (f + 1) extra cycle acc (by omega)]
      omega

/-- With neither weekend nor weekday dates the loop breaks at once. -/
lemma distLoop_empty (ve : Nat) :
    ∀ fuel extra cycle acc, distLoop [] [] ve fuel extra cycle acc = acc := by
  intro fuel extra cycle acc
  cases fuel with
  | zero => rfl
  | succ f => simp [distLoop]

/-- Summing the per-date demand counts over the support gives the number of
distributed slots. -/
lemma sum_count_eq_length (l : List Nat) :
    ∑ d ∈ l.toFinset, l.count d = l.length := by
  simp [Multiset.toFinset_sum_count_eq (l : Multiset Nat)]

/-- Membership of an in-bounds `getD`. -/
lemma getD_mem_of_lt (l : List Nat) (n : Nat) (h : n < l.length) :
    l.getD n 0 ∈ l := by
  rw [List.getD_eq_getElem l 0 h]
  exact List.getElem_mem h

/-- C4 counterexample: with weekend/holiday dates {1,2}, weekday dates
{3,4} and 6 slots, the claim puts slots 5 and 6 (the ones left after two
full cycles through the weekend set) on weekday dates, so the weekday total
would be 2 and date 1 would get exactly 2.  The code distributes
`[1, 2, 1, 2, 3, 1]`: after the two weekend cycles it alternates, giving
weekend date 1 a third slot and the weekday dates a single slot in total. -/
theorem C4_counterexample :
    dailyDemand (fun d => decide (d ≤ 2)) 4 6 1 = 3 ∧
    dailyDemand (fun d => decide (d ≤ 2)) 4 6 3 +
      dailyDemand (fun d => decide (d ≤ 2)) 4 6 4 = 1 := by
  constructor <;> decide

/-- C4 (amended): slots are handed out one at a time cycling through the
weekend/holiday dates first, and weekday dates receive nothing until two
full weekend cycles' worth of slots have been placed (after that the loop
alternates weekend/weekday rather than moving wholly to weekdays).  In
particular, whenever at most `2·|W|` slots are requested every slot lands on
a weekend/holiday date: the count is exactly `ve`, each of the first
`min ve |W|` weekend dates receives a slot, and a date outside the
weekend/holiday list receives none — so with 10 slots and 8 weekend/holiday
dates each weekend/holiday date is served before any weekday date. -/
theorem C4_weekend_first (W D : List Nat) (ve : Nat) (hW : 0 < W.length)
    (hve : ve ≤ 2 * W.length) :
    (distributeSlots W D ve).length = ve ∧
    (∀ x ∈ distributeSlots W D ve, x ∈ W) ∧
    (∀ i, i < ve → i < W.length → W.getD i 0 ∈ distributeSlots W D ve) ∧
    (∀ x, x ∉ W → (distributeSlots W D ve).count x = 0) := by
  rw [distributeSlots_weekend W D ve hW hve]
  have hmem : ∀ x ∈ (List.range' 0 ve).map (fun i => W.getD (i % W.length) 0),
      x ∈ W := by
    intro x hx
    rcases List.mem_map.mp hx with ⟨i, _, rfl⟩
    exact getD_mem_of_lt W _ (Nat.mod_lt i hW)
  refine ⟨by simp, hmem, ?_, ?_⟩
  · intro i hive hiW
    refine List.mem_map.mpr ⟨i, ?_, ?_⟩
    · exact List.mem_range'_1.mpr ⟨by omega, by omega⟩
    · rw [Nat.mod_eq_of_lt hiW]
  · intro x hx
    exact List.count_eq_zero.mpr (fun hmem2 => hx (hmem x hmem2))

/-- Witness for C4: 10 slots over the 8 weekend/holiday dates 1..8 and the
weekday dates 9, 10: all 10 slots distributed, weekend date 5 served, the
weekday date 9 gets nothing. -/
theorem C4_witness :
    (distributeSlots [1,2,3,4,5,6,7,8] [9,10] 10).length = 10 ∧
    (5 : Nat) ∈ distributeSlots [1,2,3,4,5,6,7,8] [9,10] 10 ∧
    (distributeSlots [1,2,3,4,5,6,7,8] [9,10] 10).count 9 = 0 := by
  have h := C4_weekend_first [1,2,3,4,5,6,7,8] [9,10] 10 (by decide) (by decide)
  refine ⟨h.1, ?_, h.2.2.2 9 (by decide)⟩
  have h5 := h.2.2.1 4 (by decide) (by decide)
  simpa using h5

/-- C5 counterexample: with weekend set {1}, no weekday dates and 3 slots
requested, the loop breaks after two weekend cycles: only 2 slots are
distributed even though weekend date 1 is still there to receive more, so
"sum = ve, or fewer only when no dates remain" fails. -/
theorem C5_counterexample :
    distributeSlots [1] [] 3 = [1, 1] ∧
    (distributeSlots [1] [] 3).length ≠ 3 := by
  constructor <;> decide

/-- C5 (amended): the distribution loop always terminates, and the daily
extra-demand counts sum to the number of distributed slots, which is:
exactly `ve` whenever a weekday date exists; `min ve (2·|W|)` when there is
no weekday date but the weekend set is nonempty (the loop breaks after two
full weekend cycles even though weekend dates remain); and `0` when both
sets are empty. -/
theorem C5_distribution_total (W D : List Nat) (ve : Nat) :
    (0 < D.length → (distributeSlots W D ve).length = ve) ∧
    (D = [] → 0 < W.length →
      (distributeSlots W D ve).length = min ve (2 * W.length)) ∧
    (W = [] → D = [] → distributeSlots W D ve = []) ∧
    ∑ d ∈ (distributeSlots W D ve).toFinset, (distributeSlots W D ve).count d =
      (distributeSlots W D ve).length := by
  refine ⟨?_, ?_, ?_, sum_count_eq_length _⟩
  · intro hD
    have h := distLoop_length_weekday W D ve hD ve 0 0 [] (by omega)
    simpa [distributeSlots] using h
  · rintro rfl hW
    have h := distLoop_length_no_weekday W ve hW ve 0 0 [] (by omega) (by omega)
    simpa [distributeSlots] using h
  · rintro rfl rfl
    exact distLoop_empty ve ve 0 0 []

/-- Witness for C5: the three totals at concrete inputs. -/
theorem C5_witness :
    (distributeSlots [1] [2] 5).length = 5 ∧
    (distributeSlots [3] [] 7).length = min 7 2 ∧
    distributeSlots [] [] 4 = [] := by
  refine ⟨(C5_distribution_total [1] [2] 5).1 (by decide), ?_, ?_⟩
  · have h := (C5_distribution_total [3] [] 7).2.1 rfl (by decide)
    simpa using h
  · exact (C5_distribution_total [] [] 4).2.2.1 rfl rfl

/-! ## Record-level lemmas for the state update helpers -/

lemma setShift_shifts (st : StaffState) (d : Nat) (t : ShiftType) (e : Nat) :
    (setShift st d t).shifts e = if e = d then some t else st.shifts e := rfl

lemma updateState_shifts (st : StaffState) (d : Nat) (t : ShiftType) :
    (updateState st d t).shifts = st.shifts := by
  unfold updateState
  dsimp only
  split
  · rfl
  · split
    · split <;> rfl
    · rfl

lemma updateState_fields (st : StaffState) (d : Nat) (t : ShiftType) :
    (updateState st d t).requested_off = st.requested_off ∧
    (updateState st d t).assigned_days = st.assigned_days ∧
    (updateState st d t).desired_days = st.desired_days ∧
    (updateState st d t).name = st.name ∧
    (updateState st d t).last_shift_date = some d := by
  unfold updateState
  dsimp only
  split
  · exact ⟨rfl, rfl, rfl, rfl, rfl⟩
  · split
    · split <;> exact ⟨rfl, rfl, rfl, rfl, rfl⟩
    · exact ⟨rfl, rfl, rfl, rfl, rfl⟩

lemma assignUpd_shifts (d : Nat) (t : ShiftType) (st : StaffState) (e : Nat) :
    (assignUpd d t st).shifts e = if e = d then some t else st.shifts e := by
  unfold assignUpd
  rw [updateState_shifts]
  rfl

lemma assignUpd_fields (d : Nat) (t : ShiftType) (st : StaffState) :
    (assignUpd d t st).requested_off = st.requested_off ∧
    (assignUpd d t st).assigned_days = st.assigned_days + 1 ∧
    (assignUpd d t st).desired_days = st.desired_days ∧
    (assignUpd d t st).name = st.name ∧
    (assignUpd d t st).last_shift_date = some d := by
  unfold assignUpd
  exact updateState_fields _ d t

/-! ## Lemmas about `stateOf` and `assignTo` -/

lemma stateOf_cons (p : Nat × StaffState) (l : StateMap) (id : Nat) :
    stateOf (p :: l) id = if p.1 == id then some p.2 else stateOf l id := by
  rw [stateOf, List.find?_cons]
  by_cases hp : p.1 == id
  · simp [hp]
  · simp only [Bool.not_eq_true] at hp
    simp [hp, stateOf]

lemma stateOf_mem {ss : StateMap} {id : Nat} {st : StaffState}
    (h : stateOf ss id = some st) : (id, st) ∈ ss := by
  induction ss with
  | nil => simp [stateOf] at h
  | cons p l ih =>
    rw [stateOf_cons] at h
    by_cases hp : p.1 == id
    · rw [if_pos hp] at h
      rcases p with ⟨a, b⟩
      have hpid : a = id := by simpa using hp
      have hbst : b = st := by simpa using h
      rw [hpid, hbst]
      exact List.mem_cons_self _ _
    · rw [if_neg hp] at h
      exact List.mem_cons_of_mem p (ih h)

lemma mem_stateOf {ss : StateMap} (hnd : (ss.map Prod.fst).Nodup)
    {id : Nat} {st : StaffState} (h : (id, st) ∈ ss) : stateOf ss id = some st := by
  induction ss with
  | nil => simp at h
  | cons p l ih =>
    rw [List.map_cons, List.nodup_cons] at hnd
    rcases List.mem_cons.mp h with h1 | h1
    · rw [stateOf_cons, ← h1]
      simp
    · have hne : ¬ (p.1 == id) := by
        intro hb
        apply hnd.1
        rw [Nat.beq_eq_true_eq] at hb
        rw [hb]
        exact List.mem_map.mpr ⟨(id, st), h1, rfl⟩
      rw [stateOf_cons, if_neg hne]
      exact ih hnd.2 h1

lemma stateOf_mem_self {ss : StateMap} (hnd : (ss.map Prod.fst).Nodup)
    {p : Nat × StaffState} (h : p ∈ ss) : stateOf ss p.1 = some p.2 :=
  mem_stateOf hnd (by rcases p with ⟨a, b⟩; exact h)

lemma assignTo_keys (ss : StateMap) (id : Nat) (d : Nat) (t : ShiftType) :
    (assignTo ss id d t).map Prod.fst = ss.map Prod.fst := by
  unfold assignTo
  rw [List.map_map]
  refine List.map_congr_left ?_
  intro p _
  by_cases hp : p.1 = id <;> simp [hp]

lemma stateOf_assignTo_ne (ss : StateMap) (id id' : Nat) (d : Nat) (t : ShiftType)
    (h : id' ≠ id) : stateOf (assignTo ss id d t) id' = stateOf ss id' := by
  induction ss with
  | nil => rfl
  | cons p l ih =>
    unfold assignTo at *
    rw [List.map_cons]
    by_cases hp : p.1 == id
    · have hne : ¬ ((p.1, assignUpd d t p.2).1 == id') := by
        simp only [Nat.beq_eq_true_eq] at hp ⊢
        rw [hp]
        exact fun hc => h hc.symm
      have hne2 : ¬ (p.1 == id') := by
        simp only [Nat.beq_eq_true_eq] at hp ⊢
        rw [hp]
        exact fun hc => h hc.symm
      rw [if_pos hp, stateOf_cons, if_neg hne, stateOf_cons, if_neg hne2]
      exact ih
    · rw [if_neg hp, stateOf_cons, stateOf_cons]
      by_cases hq : p.1 == id'
      · rw [if_pos hq, if_pos hq]
      · rw [if_neg hq, if_neg hq]
        exact ih

lemma mem_assignTo {ss : StateMap} {q : Nat × StaffState} {id : Nat} {d : Nat}
    {t : ShiftType} (h : q ∈ assignTo ss id d t) :
    ∃ p ∈ ss, q = p ∨ (p.1 = id ∧ q = (p.1, assignUpd d t p.2)) := by
  rcases List.mem_map.mp h with ⟨p, hp, hq⟩
  by_cases hpid : p.1 == id
  · rw [if_pos hpid] at hq
    exact ⟨p, hp, Or.inr ⟨by simpa using hpid, hq.symm⟩⟩
  · rw [if_neg hpid] at hq
    exact ⟨p, hp, Or.inl hq.symm⟩

/-! ## Counting lemmas -/

/-- Flipping one element of a duplicate-free list from rejected to accepted
grows the filter by exactly one. -/
lemma length_filter_update {l : List Nat} (hnd : l.Nodup) {d : Nat} (hd : d ∈ l)
    {p q : Nat → Bool} (hpq : ∀ e, e ≠ d → q e = p e) (hpd : p d = false)
    (hqd : q d = true) :
    (l.filter q).length = (l.filter p).length + 1 := by
  induction l with
  | nil => simp at hd
  | cons a l ih =>
    rw [List.nodup_cons] at hnd
    by_cases had : a = d
    · subst had
      have hrest : l.filter q = l.filter p := by
        refine List.filter_congr ?_
        intro e he
        exact hpq e (fun hc => hnd.1 (hc ▸ he))
      rw [List.filter_cons, List.filter_cons, if_pos hqd,
        if_neg (by simp [hpd]), hrest]
      simp
    · have hdl : d ∈ l := by
        rcases List.mem_cons.mp hd with h | h
        · exact absurd h.symm had
        · exact h
      have ha : q a = p a := hpq a had
      rw [List.filter_cons, List.filter_cons, ha]
      by_cases hpa : p a = true
      · rw [if_pos hpa, if_pos hpa]
        simp only [List.length_cons]
        rw [ih hnd.2 hdl]
      · rw [if_neg hpa, if_neg hpa]
        exact ih hnd.2 hdl

/-- Assigning work on a fresh month date increments `workCount`. -/
lemma workCount_assignUpd (days d : Nat) (t : ShiftType) (st : StaffState)
    (hd1 : 1 ≤ d) (hd2 : d ≤ days) (hnone : st.shifts d = none)
    (ht : isWorkShift (some t) = true) :
    workCount days (assignUpd d t st) = workCount days st + 1 := by
  unfold workCount
  exact @length_filter_update (List.range' 1 days) (List.nodup_range' 1 days)
    d (List.mem_range'_1.mpr ⟨hd1, by omega⟩)
    (fun e => isWorkShift (st.shifts e))
    (fun e => isWorkShift ((assignUpd d t st).shifts e))
    (fun e he => by dsimp only; rw [assignUpd_shifts, if_neg he])
    (by dsimp only; rw [hnone]; rfl)
    (by dsimp only; rw [assignUpd_shifts, if_pos rfl]; exact ht)

/-! ## Preservation of the allocation invariant -/

lemma GoodS.mono {days k k' : Nat} (h : k ≤ k') {st : StaffState}
    (hg : GoodS days k st) : GoodS days k' st :=
  ⟨fun e he => hg.future e (le_trans h he), hg.reqOff, hg.noNightDay,
    hg.lastNone, hg.counter, hg.bounds, hg.inRange⟩

/-- The gate really blocks NIGHT-then-DAY: if yesterday is a set NIGHT and a
last shift exists, a DAY request is rejected. -/
lemma canAssign_night_block {st : StaffState} {d : Nat}
    (hl : st.last_shift_date ≠ none)
    (hprev : st.shifts (d - 1) = some ShiftType.NIGHT)
    (hcan : canAssignShift st d ShiftType.DAY = true) : False := by
  unfold canAssignShift at hcan
  cases hL : st.last_shift_date with
  | none => exact hl hL
  | some x => simp [hL, hprev] at hcan

/-- A guarded single assignment preserves the invariant mid-date. -/
lemma assignUpd_good {days d : Nat} {st : StaffState} {t : ShiftType}
    (ht : t = ShiftType.DAY ∨ t = ShiftType.NIGHT)
    (hd1 : 1 ≤ d) (hd2 : d ≤ days)
    (hg : GoodS days (d + 1) st)
    (hnone : st.shifts d = none)
    (hlt : st.assigned_days < st.desired_days)
    (hcan : canAssignShift st d t = true) :
    GoodS days (d + 1) (assignUpd d t st) := by
  obtain ⟨hreq, hass, hdes, hnm, hlast⟩ := assignUpd_fields d t st
  refine ⟨?_, ?_, ?_, ?_, ?_, ?_, ?_⟩
  · intro e he
    rw [assignUpd_shifts, if_neg (by omega)]
    exact hg.future e he
  · intro d' hd' h1 h2
    rw [hreq] at hd'
    by_cases hdd : d' = d
    · exfalso
      have := hg.reqOff d' hd' h1 h2
      rw [hdd, hnone] at this
      cases this
    · rw [assignUpd_shifts, if_neg hdd]
      exact hg.reqOff d' hd' h1 h2
  · intro e hNe hDe
    rw [assignUpd_shifts] at hNe hDe
    by_cases hed : e = d
    · rw [if_pos hed] at hNe
      rw [if_neg (by omega)] at hDe
      have hfut := hg.future (e + 1) (by omega)
      rw [hDe] at hfut
      rcases hfut with h | h <;> cases h
    · rw [if_neg hed] at hNe
      by_cases he1d : e + 1 = d
      · rw [if_pos he1d] at hDe
        have htD : t = ShiftType.DAY := by
          cases hDe
          rfl
        subst htD
        have hprev : st.shifts (d - 1) = some ShiftType.NIGHT := by
          have : d - 1 = e := by omega
          rw [this]
          exact hNe
        have hl : st.last_shift_date ≠ none := by
          intro hL
          have := hg.lastNone hL e
          rw [hNe] at this
          cases this
        exact canAssign_night_block hl hprev hcan
      · rw [if_neg he1d] at hDe
        exact hg.noNightDay e hNe hDe
  · intro hL
    rw [hlast] at hL
    cases hL
  · rw [hass, hg.counter]
    exact (workCount_assignUpd days d t st hd1 hd2 hnone
      (by rcases ht with h | h <;> rw [h] <;> rfl)).symm
  · rw [hass, hdes]
    omega
  · intro e he
    rw [assignUpd_shifts, if_neg (by omega)]
    exact hg.inRange e he

/-- The fill loop (day or night) preserves the invariant, keeps the key
list, leaves non-assigned staff untouched, and only grows `assigned`. -/
lemma fillShift_invariant (t : ShiftType) (ht : t = ShiftType.DAY ∨ t = ShiftType.NIGHT)
    (days d target : Nat) (hd1 : 1 ≤ d) (hd2 : d ≤ days) (skip : List Nat) :
    ∀ (order : List Nat) (ss : StateMap) (assigned : List Nat),
      (ss.map Prod.fst).Nodup →
      order.Nodup →
      (∀ x ∈ order, x ∉ assigned) →
      (∀ p ∈ ss, GoodS days (d + 1) p.2) →
      (∀ id ∈ order, id ∉ skip → ∀ st, stateOf ss id = some st →
        st.shifts d = none) →
      ((fillShift t d target skip ss order assigned).1.map Prod.fst =
        ss.map Prod.fst) ∧
      (∀ p ∈ (fillShift t d target skip ss order assigned).1,
        GoodS days (d + 1) p.2) ∧
      (∀ id, id ∉ (fillShift t d target skip ss order assigned).2 →
        stateOf (fillShift t d target skip ss order assigned).1 id =
          stateOf ss id) ∧
      (∀ x ∈ assigned, x ∈ (fillShift t d target skip ss order assigned).2) := by
  intro order
  induction order with
  | nil =>
    intro ss assigned _ _ _ hg _
    exact ⟨rfl, hg, fun id _ => rfl, fun x hx => hx⟩
  | cons id rest ih =>
    intro ss assigned hnd hord hdisj hg h2
    rw [List.nodup_cons] at hord
    by_cases hskip : id ∈ skip
    · have hbody : fillShift t d target skip ss (id :: rest) assigned =
          fillShift t d target skip ss rest assigned := by
        rw [fillShift, if_pos hskip]
      rw [hbody]
      exact ih ss assigned hnd hord.2
        (fun x hx => hdisj x (List.mem_cons_of_mem id hx)) hg
        (fun x hx hs => h2 x (List.mem_cons_of_mem id hx) hs)
    · by_cases htgt : target ≤ assigned.length
      · have hbody : fillShift t d target skip ss (id :: rest) assigned =
            (ss, assigned) := by
          rw [fillShift, if_neg hskip, if_pos htgt]
        rw [hbody]
        exact ⟨rfl, hg, fun _ _ => rfl, fun x hx => hx⟩
      · cases hst : stateOf ss id with
        | none =>
          have hbody : fillShift t d target skip ss (id :: rest) assigned =
              fillShift t d target skip ss rest assigned := by
            rw [fillShift, if_neg hskip, if_neg htgt, hst]
          rw [hbody]
          exact ih ss assigned hnd hord.2
            (fun x hx => hdisj x (List.mem_cons_of_mem id hx)) hg
            (fun x hx hs => h2 x (List.mem_cons_of_mem id hx) hs)
        | some st =>
          by_cases hguard : (canWork t st &&
              decide (st.assigned_days < st.desired_days) &&
              canAssignShift st d t) = true
          · have hbody : fillShift t d target skip ss (id :: rest) assigned =
                fillShift t d target skip (assignTo ss id d t) rest
                  (assigned ++ [id]) := by
              rw [fillShift, if_neg hskip, if_neg htgt, hst]
              dsimp only
              rw [if_pos hguard]
            rw [hbody]
            have hnone : st.shifts d = none :=
              h2 id (List.mem_cons_self id rest) hskip st hst
            have hgst : GoodS days (d + 1) st := hg (id, st) (stateOf_mem hst)
            have hguard' := hguard
            rw [Bool.and_assoc, Bool.and_eq_true, Bool.and_eq_true] at hguard'
            have hlt : st.assigned_days < st.desired_days :=
              of_decide_eq_true hguard'.2.1
            have hcan : canAssignShift st d t = true := hguard'.2.2
            have hkeys := assignTo_keys ss id d t
            have hnd' : ((assignTo ss id d t).map Prod.fst).Nodup := by
              rw [hkeys]
              exact hnd
            have hg' : ∀ p ∈ assignTo ss id d t, GoodS days (d + 1) p.2 := by
              intro p hp
              rcases mem_assignTo hp with ⟨q, hq, hcase⟩
              rcases hcase with heq | ⟨hq1, heq⟩
              · rw [heq]
                exact hg q hq
              · have h1 := stateOf_mem_self hnd hq
                rw [hq1, hst] at h1
                have huniq : q.2 = st := by
                  have h3 := h1.symm
                  simpa using h3
                rw [heq]
                dsimp only
                rw [huniq]
                exact assignUpd_good ht hd1 hd2 hgst hnone hlt hcan
            have h2' : ∀ x ∈ rest, x ∉ skip → ∀ st',
                stateOf (assignTo ss id d t) x = some st' → st'.shifts d = none := by
              intro x hx hxs st' hst'
              have hxid : x ≠ id := fun hc => hord.1 (hc ▸ hx)
              rw [stateOf_assignTo_ne ss id x d t hxid] at hst'
              exact h2 x (List.mem_cons_of_mem id hx) hxs st' hst'
            obtain ⟨k1, k2, k3, k4⟩ := ih (assignTo ss id d t) (assigned ++ [id])
              hnd' hord.2
              (fun x hx => by
                intro hc
                rcases List.mem_append.mp hc with hc1 | hc1
                · exact hdisj x (List.mem_cons_of_mem id hx) hc1
                · exact hord.1 ((List.mem_singleton.mp hc1) ▸ hx))
              hg' h2'
            refine ⟨by rw [k1, hkeys], k2, ?_, ?_⟩
            · intro x hx
              have hxa : x ∉ assigned ++ [id] := fun hc => hx (k4 x hc)
              have hxid : x ≠ id := by
                intro hc
                apply hxa
                rw [hc]
                exact List.mem_append.mpr (Or.inr (List.mem_singleton.mpr rfl))
              rw [k3 x hx]
              exact stateOf_assignTo_ne ss id x d t hxid
            · intro x hx
              exact k4 x (List.mem_append.mpr (Or.inl hx))
          · have hbody : fillShift t d target skip ss (id :: rest) assigned =
                fillShift t d target skip ss rest assigned := by
              rw [fillShift, if_neg hskip, if_neg htgt, hst]
              dsimp only
              rw [if_neg hguard]
            rw [hbody]
            exact ih ss assigned hnd hord.2
              (fun x hx => hdisj x (List.mem_cons_of_mem id hx)) hg
              (fun x hx hs => h2 x (List.mem_cons_of_mem id hx) hs)

/-! ## The priority sort permutes the available list -/

lemma insertSorted_perm (key : Nat → Int) (x : Nat) :
    ∀ l, (insertSorted key x l).Perm (x :: l) := by
  intro l
  induction l with
  | nil => rfl
  | cons a l ih =>
    rw [insertSorted]
    by_cases h : key a ≤ key x
    · rw [if_pos h]
      exact (ih.cons a).trans (List.Perm.swap x a l)
    · rw [if_neg h]

lemma sortStable_perm (key : Nat → Int) (l : List Nat) :
    (sortStable key l).Perm l := by
  have aux : ∀ (m : List Nat) (acc : List Nat),
      (m.foldl (fun acc x => insertSorted key x acc) acc).Perm (m ++ acc) := by
    intro m
    induction m with
    | nil => intro acc; simp
    | cons a m ih =>
      intro acc
      rw [List.foldl_cons]
      refine (ih (insertSorted key a acc)).trans ?_
      refine (List.Perm.append_left m (insertSorted_perm key a acc)).trans ?_
      exact List.perm_middle
  have h := aux l []
  rw [List.append_nil] at h
  exact h

/-! ## One allocation date preserves the invariant -/

lemma processDate_good (cfg : Config) (isWH : Nat → Bool) (demand : Nat → Nat)
    (days d : Nat) (hd1 : 1 ≤ d) (hd2 : d ≤ days) (ss : StateMap)
    (warn : List Warning)
    (hnd : (ss.map Prod.fst).Nodup)
    (hg : ∀ p ∈ ss, GoodS days d p.2) :
    ((processDate cfg isWH demand d (ss, warn)).1.map Prod.fst =
      ss.map Prod.fst) ∧
    (∀ p ∈ (processDate cfg isWH demand d (ss, warn)).1,
      GoodS days (d + 1) p.2) := by
  have hgm : ∀ p ∈ ss, GoodS days (d + 1) p.2 :=
    fun p hp => (hg p hp).mono (by omega)
  simp only [processDate]
  set key : Nat → Int := fun id =>
    match stateOf ss id with
    | some st => priorityKey (isWH d) st
    | none => 0 with hkey
  set avail := (ss.filter
    (fun p => decide ¬p.2.shifts d = some ShiftType.OFF)).map
    (fun p => p.1) with havail
  set order := sortStable key avail with horder
  have hperm := sortStable_perm key avail
  have havnd : avail.Nodup := by
    rw [havail]
    exact ((List.filter_sublist ss).map (fun p => p.1)).nodup hnd
  have hornd : order.Nodup := hperm.nodup_iff.mpr havnd
  have h2 : ∀ id ∈ order, id ∉ ([] : List Nat) → ∀ st,
      stateOf ss id = some st → st.shifts d = none := by
    intro id hid _ st hst
    have hidav : id ∈ avail := hperm.mem_iff.mp hid
    rw [havail] at hidav
    rcases List.mem_map.mp hidav with ⟨p, hp, hpid⟩
    rcases List.mem_filter.mp hp with ⟨hpss, hpo⟩
    have hpo' : ¬ p.2.shifts d = some ShiftType.OFF := of_decide_eq_true hpo
    have huniq : p.2 = st := by
      have h1 := stateOf_mem_self hnd hpss
      rw [hpid, hst] at h1
      simpa using h1.symm
    rcases (hg p hpss).future d (le_refl d) with h | h
    · rw [← huniq]
      exact h
    · exact absurd (huniq ▸ h) (huniq ▸ hpo')
  obtain ⟨dk, dgood, dframe, _⟩ := fillShift_invariant ShiftType.DAY (Or.inl rfl)
    days d (cfg.min_staff_day + demand d / 2) hd1 hd2 [] order ss []
    hnd hornd (by intro x _; exact List.not_mem_nil x) hgm h2
  set dayR := fillShift ShiftType.DAY d (cfg.min_staff_day + demand d / 2) []
    ss order [] with hdayR
  have hnd1 : (dayR.1.map Prod.fst).Nodup := by
    rw [dk]
    exact hnd
  have h2n : ∀ id ∈ order, id ∉ dayR.2 → ∀ st,
      stateOf dayR.1 id = some st → st.shifts d = none := by
    intro id hid hskip st hst
    rw [dframe id hskip] at hst
    exact h2 id hid (List.not_mem_nil id) st hst
  obtain ⟨nk, ngood, _, _⟩ := fillShift_invariant ShiftType.NIGHT (Or.inr rfl)
    days d (cfg.min_staff_night + (demand d - demand d / 2)) hd1 hd2 dayR.2
    order dayR.1 [] hnd1 hornd (by intro x _; exact List.not_mem_nil x) dgood h2n
  exact ⟨by rw [nk, dk], ngood⟩

/-! ## Folding over all month dates -/

lemma processDates_good (cfg : Config) (isWH : Nat → Bool) (demand : Nat → Nat)
    (days : Nat) :
    ∀ (n k : Nat) (ss : StateMap) (warn : List Warning), 1 ≤ k →
      k + n ≤ days + 1 →
      (ss.map Prod.fst).Nodup → (∀ p ∈ ss, GoodS days k p.2) →
      (((List.range' k n).foldl (fun acc d => processDate cfg isWH demand d acc)
          (ss, warn)).1.map Prod.fst = ss.map Prod.fst) ∧
      (∀ p ∈ ((List.range' k n).foldl
          (fun acc d => processDate cfg isWH demand d acc) (ss, warn)).1,
        GoodS days (k + n) p.2) := by
  intro n
  induction n with
  | zero =>
    intro k ss warn hk hkn hnd hg
    simp only [List.range'_zero, List.foldl_nil, Nat.add_zero]
    exact ⟨trivial, hg⟩
  | succ n ih =>
    intro k ss warn hk hkn hnd hg
    rw [List.range'_succ]
    simp only [List.foldl_cons]
    obtain ⟨pk, pg⟩ := processDate_good cfg isWH demand days k hk (by omega)
      ss warn hnd hg
    obtain ⟨k1, k2⟩ := ih (k + 1) (processDate cfg isWH demand k (ss, warn)).1
      (processDate cfg isWH demand k (ss, warn)).2 (by omega) (by omega)
      (by rw [pk]; exact hnd) pg
    rw [Prod.mk.eta] at k1 k2
    constructor
    · rw [k1, pk]
    · have harith : k + (n + 1) = (k + 1) + n := by omega
      rw [harith]
      exact k2

/-! ## Phase 1 seeding -/

lemma seedFold_spec :
    ∀ (l : List Nat) (st : StaffState),
      ((l.foldl (fun s d =>
          if d ∈ s.requested_off then setShift s d ShiftType.OFF else s)
        st).requested_off = st.requested_off ∧
       (l.foldl (fun s d =>
          if d ∈ s.requested_off then setShift s d ShiftType.OFF else s)
        st).assigned_days = st.assigned_days ∧
       (l.foldl (fun s d =>
          if d ∈ s.requested_off then setShift s d ShiftType.OFF else s)
        st).desired_days = st.desired_days ∧
       (l.foldl (fun s d =>
          if d ∈ s.requested_off then setShift s d ShiftType.OFF else s)
        st).last_shift_date = st.last_shift_date) ∧
      (∀ e, (l.foldl (fun s d =>
          if d ∈ s.requested_off then setShift s d ShiftType.OFF else s)
        st).shifts e =
          if e ∈ l ∧ e ∈ st.requested_off then some ShiftType.OFF
          else st.shifts e) := by
  intro l
  induction l with
  | nil =>
    intro st
    refine ⟨⟨rfl, rfl, rfl, rfl⟩, ?_⟩
    intro e
    simp
  | cons a l ih =>
    intro st
    rw [List.foldl_cons]
    set s1 := if a ∈ st.requested_off then setShift st a ShiftType.OFF else st
      with hs1
    have hfields : s1.requested_off = st.requested_off ∧
        s1.assigned_days = st.assigned_days ∧
        s1.desired_days = st.desired_days ∧
        s1.last_shift_date = st.last_shift_date := by
      rw [hs1]
      by_cases ha : a ∈ st.requested_off
      · rw [if_pos ha]
        exact ⟨rfl, rfl, rfl, rfl⟩
      · rw [if_neg ha]
        exact ⟨rfl, rfl, rfl, rfl⟩
    have hshift1 : ∀ e, s1.shifts e =
        if e = a ∧ a ∈ st.requested_off then some ShiftType.OFF
        else st.shifts e := by
      intro e
      rw [hs1]
      by_cases ha : a ∈ st.requested_off
      · rw [if_pos ha, setShift_shifts]
        by_cases hea : e = a
        · rw [if_pos hea, if_pos ⟨hea, ha⟩]
        · rw [if_neg hea, if_neg (fun hc => hea hc.1)]
      · rw [if_neg ha, if_neg (fun hc => ha hc.2)]
    obtain ⟨⟨f1, f2, f3, f4⟩, hsh⟩ := ih s1
    refine ⟨⟨by rw [f1, hfields.1], by rw [f2, hfields.2.1],
      by rw [f3, hfields.2.2.1], by rw [f4, hfields.2.2.2]⟩, ?_⟩
    intro e
    rw [hsh e, hfields.1, hshift1 e]
    by_cases hel : e ∈ l ∧ e ∈ st.requested_off
    · rw [if_pos hel, if_pos ⟨List.mem_cons_of_mem a hel.1, hel.2⟩]
    · rw [if_neg hel]
      by_cases hea : e = a ∧ a ∈ st.requested_off
      · have : e ∈ a :: l ∧ e ∈ st.requested_off :=
          ⟨by rw [hea.1]; exact List.mem_cons_self a l, by rw [hea.1]; exact hea.2⟩
        rw [if_pos hea, if_pos this]
      · rw [if_neg hea]
        by_cases hc : e ∈ a :: l ∧ e ∈ st.requested_off
        · exfalso
          rcases List.mem_cons.mp hc.1 with h | h
          · exact hea ⟨h, h ▸ hc.2⟩
          · exact hel ⟨h, hc.2⟩
        · rw [if_neg hc]

/-- `seedFold_spec` restated about `seedOff` (definitional repackaging). -/
lemma seedOff_spec (days : Nat) (st : StaffState) :
    ((seedOff days st).requested_off = st.requested_off ∧
     (seedOff days st).assigned_days = st.assigned_days ∧
     (seedOff days st).desired_days = st.desired_days ∧
     (seedOff days st).last_shift_date = st.last_shift_date) ∧
    (∀ e, (seedOff days st).shifts e =
      if e ∈ List.range' 1 days ∧ e ∈ st.requested_off then some ShiftType.OFF
      else st.shifts e) :=
  seedFold_spec (List.range' 1 days) st

/-- A freshly seeded staff state satisfies the invariant before date 1. -/
lemma seedOff_good (days : Nat) (r : StaffRow) :
    GoodS days 1 (seedOff days (initState r)) := by
  obtain ⟨⟨hreq, hass, hdes, hlast⟩, hshift⟩ := seedOff_spec days (initState r)
  refine ⟨?_, ?_, ?_, ?_, ?_, ?_, ?_⟩
  · intro e _
    rw [hshift e]
    by_cases hc : e ∈ List.range' 1 days ∧ e ∈ (initState r).requested_off
    · rw [if_pos hc]
      exact Or.inr rfl
    · rw [if_neg hc]
      exact Or.inl rfl
  · intro d hd h1 h2
    rw [hreq] at hd
    rw [hshift d, if_pos ⟨List.mem_range'_1.mpr ⟨h1, by omega⟩, hd⟩]
  · intro e hNe
    rw [hshift e] at hNe
    by_cases hc : e ∈ List.range' 1 days ∧ e ∈ (initState r).requested_off
    · rw [if_pos hc] at hNe
      cases hNe
    · rw [if_neg hc] at hNe
      cases hNe
  · intro _ e
    rw [hshift e]
    by_cases hc : e ∈ List.range' 1 days ∧ e ∈ (initState r).requested_off
    · rw [if_pos hc]
      rfl
    · rw [if_neg hc]
      rfl
  · rw [hass]
    unfold workCount
    have hnil : (List.range' 1 days).filter
        (fun d => isWorkShift ((seedOff days (initState r)).shifts d)) = [] := by
      rw [List.filter_eq_nil_iff]
      intro e _
      rw [hshift e]
      by_cases hc : e ∈ List.range' 1 days ∧ e ∈ (initState r).requested_off
      · rw [if_pos hc]
        simp [isWorkShift]
      · rw [if_neg hc]
        simp [isWorkShift, initState]
    rw [hnil]
    rfl
  · rw [hass, hdes]
    exact Nat.zero_le _
  · intro e he
    rw [hshift e]
    have hnr : e ∉ List.range' 1 days := by
      intro hc
      rcases List.mem_range'_1.mp hc with ⟨h1, h2⟩
      omega
    rw [if_neg (fun hc => hnr hc.1)]
    rfl

/-! ## Building the staff dict -/

lemma buildStates_shape (roster : List StaffRow) :
    ∀ p ∈ buildStates roster, ∃ r : StaffRow, p = (r.staff_id, initState r) := by
  have aux : ∀ (rows : List StaffRow) (acc : StateMap),
      (∀ p ∈ acc, ∃ r : StaffRow, p = (r.staff_id, initState r)) →
      ∀ p ∈ rows.foldl (fun acc r =>
          if acc.any (fun p => p.1 == r.staff_id) then
            acc.map (fun p => if p.1 == r.staff_id then (p.1, initState r) else p)
          else acc ++ [(r.staff_id, initState r)]) acc,
        ∃ r : StaffRow, p = (r.staff_id, initState r) := by
    intro rows
    induction rows with
    | nil => intro acc hacc p hp; exact hacc p hp
    | cons row rows ih =>
      intro acc hacc p hp
      rw [List.foldl_cons] at hp
      refine ih _ ?_ p hp
      by_cases hany : acc.any (fun p => p.1 == row.staff_id)
      · rw [if_pos hany]
        intro q hq
        rcases List.mem_map.mp hq with ⟨q0, hq0, hq0e⟩
        by_cases hqid : q0.1 == row.staff_id
        · rw [if_pos hqid] at hq0e
          refine ⟨row, ?_⟩
          rw [← hq0e]
          have : q0.1 = row.staff_id := by simpa using hqid
          rw [this]
        · rw [if_neg hqid] at hq0e
          rw [← hq0e]
          exact hacc q0 hq0
      · rw [if_neg hany]
        intro q hq
        rcases List.mem_append.mp hq with h | h
        · exact hacc q h
        · exact ⟨row, List.mem_singleton.mp h⟩
  intro p hp
  exact aux roster [] (by intro q hq; cases hq) p hp

lemma buildStates_nodup (roster : List StaffRow) :
    ((buildStates roster).map Prod.fst).Nodup := by
  have aux : ∀ (rows : List StaffRow) (acc : StateMap),
      (acc.map Prod.fst).Nodup →
      ((rows.foldl (fun acc r =>
          if acc.any (fun p => p.1 == r.staff_id) then
            acc.map (fun p => if p.1 == r.staff_id then (p.1, initState r) else p)
          else acc ++ [(r.staff_id, initState r)]) acc).map Prod.fst).Nodup := by
    intro rows
    induction rows with
    | nil => intro acc hacc; exact hacc
    | cons row rows ih =>
      intro acc hacc
      rw [List.foldl_cons]
      refine ih _ ?_
      by_cases hany : acc.any (fun p => p.1 == row.staff_id)
      · rw [if_pos hany]
        have hkeys : (acc.map (fun p =>
            if p.1 == row.staff_id then (p.1, initState row) else p)).map Prod.fst =
            acc.map Prod.fst := by
          rw [List.map_map]
          refine List.map_congr_left ?_
          intro p _
          by_cases hp : p.1 == row.staff_id
          · rw [Function.comp_apply, if_pos hp]
          · rw [Function.comp_apply, if_neg hp]
        rw [hkeys]
        exact hacc
      · rw [if_neg hany]
        rw [List.map_append]
        rw [List.nodup_append]
        refine ⟨hacc, List.nodup_singleton _, ?_⟩
        intro x hx hx2
        simp only [List.map_cons, List.map_nil, List.mem_singleton] at hx2
        rw [List.any_eq_true] at hany
        push_neg at hany
        rcases List.mem_map.mp hx with ⟨p, hp, hpe⟩
        exact hany p hp (by rw [hpe, hx2]; simp)
  exact aux roster [] (by simp)

lemma buildStates_of_nodup {roster : List StaffRow}
    (hnd : (roster.map (fun r => r.staff_id)).Nodup) :
    buildStates roster = roster.map (fun r => (r.staff_id, initState r)) := by
  have aux : ∀ (rows : List StaffRow) (acc : StateMap),
      (∀ r ∈ rows, r.staff_id ∉ acc.map Prod.fst) →
      (rows.map (fun r => r.staff_id)).Nodup →
      rows.foldl (fun acc r =>
          if acc.any (fun p => p.1 == r.staff_id) then
            acc.map (fun p => if p.1 == r.staff_id then (p.1, initState r) else p)
          else acc ++ [(r.staff_id, initState r)]) acc =
        acc ++ rows.map (fun r => (r.staff_id, initState r)) := by
    intro rows
    induction rows with
    | nil => intro acc _ _; simp
    | cons row rows ih =>
      intro acc hfresh hnd2
      rw [List.map_cons, List.nodup_cons] at hnd2
      rw [List.foldl_cons]
      have hany : ¬ acc.any (fun p => p.1 == row.staff_id) = true := by
        rw [List.any_eq_true]
        push_neg
        intro p hp hc
        have hc2 : p.1 = row.staff_id := by simpa using hc
        exact hfresh row (List.mem_cons_self row rows)
          (List.mem_map.mpr ⟨p, hp, hc2⟩)
      rw [if_neg hany]
      rw [ih (acc ++ [(row.staff_id, initState row)]) ?_ hnd2.2]
      · rw [List.map_cons, List.append_assoc, List.singleton_append]
      · intro r hr
        rw [List.map_append]
        intro hc
        rcases List.mem_append.mp hc with h | h
        · exact hfresh r (List.mem_cons_of_mem row hr) h
        · simp only [List.map_cons, List.map_nil, List.mem_singleton] at h
          exact hnd2.1 (h ▸ List.mem_map.mpr ⟨r, hr, rfl⟩)
  have h := aux roster [] (by intro r _ hc; simp at hc) hnd
  rw [List.nil_append] at h
  exact h

/-! ## Phase 4: closing the matrix -/

lemma fillOffFold_spec :
    ∀ (l : List Nat) (st : StaffState),
      ((l.foldl (fun s d =>
          if s.shifts d = none then setShift s d ShiftType.OFF else s)
        st).requested_off = st.requested_off ∧
       (l.foldl (fun s d =>
          if s.shifts d = none then setShift s d ShiftType.OFF else s)
        st).assigned_days = st.assigned_days ∧
       (l.foldl (fun s d =>
          if s.shifts d = none then setShift s d ShiftType.OFF else s)
        st).desired_days = st.desired_days ∧
       (l.foldl (fun s d =>
          if s.shifts d = none then setShift s d ShiftType.OFF else s)
        st).name = st.name) ∧
      (∀ e, (l.foldl (fun s d =>
          if s.shifts d = none then setShift s d ShiftType.OFF else s)
        st).shifts e =
          if e ∈ l ∧ st.shifts e = none then some ShiftType.OFF
          else st.shifts e) := by
  intro l
  induction l with
  | nil =>
    intro st
    refine ⟨⟨rfl, rfl, rfl, rfl⟩, ?_⟩
    intro e
    simp
  | cons a l ih =>
    intro st
    rw [List.foldl_cons]
    set s1 := if st.shifts a = none then setShift st a ShiftType.OFF else st
      with hs1
    have hfields : s1.requested_off = st.requested_off ∧
        s1.assigned_days = st.assigned_days ∧
        s1.desired_days = st.desired_days ∧
        s1.name = st.name := by
      rw [hs1]
      by_cases ha : st.shifts a = none
      · rw [if_pos ha]
        exact ⟨rfl, rfl, rfl, rfl⟩
      · rw [if_neg ha]
        exact ⟨rfl, rfl, rfl, rfl⟩
    have hshift1 : ∀ e, s1.shifts e =
        if e = a ∧ st.shifts a = none then some ShiftType.OFF
        else st.shifts e := by
      intro e
      rw [hs1]
      by_cases ha : st.shifts a = none
      · rw [if_pos ha, setShift_shifts]
        by_cases hea : e = a
        · rw [if_pos hea, if_pos ⟨hea, ha⟩]
        · rw [if_neg hea, if_neg (fun hc => hea hc.1)]
      · rw [if_neg ha, if_neg (fun hc => ha hc.2)]
    obtain ⟨⟨f1, f2, f3, f4⟩, hsh⟩ := ih s1
    refine ⟨⟨by rw [f1, hfields.1], by rw [f2, hfields.2.1],
      by rw [f3, hfields.2.2.1], by rw [f4, hfields.2.2.2]⟩, ?_⟩
    intro e
    rw [hsh e, hshift1 e]
    by_cases hea : e = a ∧ st.shifts a = none
    · have hs1e : (if e = a ∧ st.shifts a = none then some ShiftType.OFF
          else st.shifts e) = some ShiftType.OFF := if_pos hea
      by_cases hel : e ∈ l ∧ (if e = a ∧ st.shifts a = none then some ShiftType.OFF
          else st.shifts e) = none
      · rw [hs1e] at hel
        cases hel.2
      · rw [if_neg hel, hs1e,
          if_pos ⟨by rw [hea.1]; exact List.mem_cons_self a l, hea.1 ▸ hea.2⟩]
    · have hs1e : (if e = a ∧ st.shifts a = none then some ShiftType.OFF
          else st.shifts e) = st.shifts e := if_neg hea
      rw [hs1e]
      by_cases hel : e ∈ l ∧ st.shifts e = none
      · rw [if_pos hel, if_pos ⟨List.mem_cons_of_mem a hel.1, hel.2⟩]
      · rw [if_neg hel]
        by_cases hc : e ∈ a :: l ∧ st.shifts e = none
        · exfalso
          rcases List.mem_cons.mp hc.1 with h | h
          · exact hea ⟨h, h ▸ hc.2⟩
          · exact hel ⟨h, hc.2⟩
        · rw [if_neg hc]

/-- `fillOffFold_spec` restated about `fillOffAll`. -/
lemma fillOffAll_spec (days : Nat) (st : StaffState) :
    ((fillOffAll days st).requested_off = st.requested_off ∧
     (fillOffAll days st).assigned_days = st.assigned_days ∧
     (fillOffAll days st).desired_days = st.desired_days ∧
     (fillOffAll days st).name = st.name) ∧
    (∀ e, (fillOffAll days st).shifts e =
      if e ∈ List.range' 1 days ∧ st.shifts e = none then some ShiftType.OFF
      else st.shifts e) :=
  fillOffFold_spec (List.range' 1 days) st

/-! ## The allocation prefix and the final states -/

lemma allocAfter_spec (cfg : Config) (isWH : Nat → Bool) (days : Nat)
    (roster : List StaffRow) (k : Nat) (hk : k ≤ days) :
    ((allocAfter cfg isWH days roster k).1.map Prod.fst =
      (buildStates roster).map Prod.fst) ∧
    (∀ p ∈ (allocAfter cfg isWH days roster k).1, GoodS days (1 + k) p.2) := by
  simp only [allocAfter]
  set demand := dailyDemand isWH days cfg.variable_extra_slots_month with hdem
  set ss0 := (buildStates roster).map (fun p => (p.1, seedOff days p.2)) with hss0
  have hkeys0 : ss0.map Prod.fst = (buildStates roster).map Prod.fst := by
    rw [hss0, List.map_map]
    rfl
  have hnd0 : (ss0.map Prod.fst).Nodup := by
    rw [hkeys0]
    exact buildStates_nodup roster
  have hg0 : ∀ p ∈ ss0, GoodS days 1 p.2 := by
    intro p hp
    rw [hss0] at hp
    rcases List.mem_map.mp hp with ⟨q, hq, hqe⟩
    rcases buildStates_shape roster q hq with ⟨r, hr⟩
    rw [← hqe, hr]
    exact seedOff_good days r
  obtain ⟨h1, h2⟩ := processDates_good cfg isWH demand days k 1 ss0
    (capacityWarnings cfg days roster) (le_refl 1) (by omega) hnd0 hg0
  exact ⟨by rw [h1, hkeys0], h2⟩

/-- The key facts about every state in the output of `generate_schedule`:
requested-off month dates are OFF, no NIGHT is directly followed by DAY,
`assigned_days` equals the number of worked dates and respects
`desired_days`, every month date is set, and nothing outside the month is
set. -/
lemma generate_states_spec (rules : Rules) (cfg : Config) (isWH : Nat → Bool)
    (days : Nat) (roster : List StaffRow) :
    ((generateSchedule rules cfg isWH days roster).states.map Prod.fst =
      (buildStates roster).map Prod.fst) ∧
    ∀ p ∈ (generateSchedule rules cfg isWH days roster).states,
      (∀ d, d ∈ p.2.requested_off → 1 ≤ d → d ≤ days →
        p.2.shifts d = some ShiftType.OFF) ∧
      (∀ d, p.2.shifts d = some ShiftType.NIGHT →
        p.2.shifts (d + 1) ≠ some ShiftType.DAY) ∧
      (p.2.assigned_days = workCount days p.2 ∧
        p.2.assigned_days ≤ p.2.desired_days) ∧
      (∀ d, 1 ≤ d → d ≤ days → (p.2.shifts d).isSome = true) ∧
      (∀ e, e = 0 ∨ days < e → p.2.shifts e = none) := by
  obtain ⟨hkeys, hgood⟩ := allocAfter_spec cfg isWH days roster days (le_refl days)
  have hstates : (generateSchedule rules cfg isWH days roster).states =
      (allocAfter cfg isWH days roster days).1.map
        (fun p => (p.1, fillOffAll days p.2)) := rfl
  constructor
  · rw [hstates, List.map_map, ← hkeys]
    rfl
  · intro p hp
    rw [hstates] at hp
    rcases List.mem_map.mp hp with ⟨q, hq, hqe⟩
    have hg := hgood q hq
    obtain ⟨⟨freq, fass, fdes, _⟩, fshift⟩ := fillOffAll_spec days q.2
    rw [← hqe]
    dsimp only
    refine ⟨?_, ?_, ⟨?_, ?_⟩, ?_, ?_⟩
    · intro d hd h1 h2
      rw [freq] at hd
      have := hg.reqOff d hd h1 h2
      rw [fshift d, if_neg (fun hc => by rw [this] at hc; cases hc.2)]
      exact this
    · intro d hN hD
      rw [fshift d] at hN
      rw [fshift (d + 1)] at hD
      by_cases hc : d ∈ List.range' 1 days ∧ q.2.shifts d = none
      · rw [if_pos hc] at hN
        cases hN
      · rw [if_neg hc] at hN
        by_cases hc2 : d + 1 ∈ List.range' 1 days ∧ q.2.shifts (d + 1) = none
        · rw [if_pos hc2] at hD
          cases hD
        · rw [if_neg hc2] at hD
          exact hg.noNightDay d hN hD
    · rw [fass, hg.counter]
      unfold workCount
      congr 1
      refine List.filter_congr ?_
      intro e _
      rw [fshift e]
      by_cases hc : e ∈ List.range' 1 days ∧ q.2.shifts e = none
      · rw [if_pos hc, hc.2]
        rfl
      · rw [if_neg hc]
    · rw [fass, fdes]
      exact hg.bounds
    · intro d h1 h2
      rw [fshift d]
      by_cases hc : d ∈ List.range' 1 days ∧ q.2.shifts d = none
      · rw [if_pos hc]
        rfl
      · rw [if_neg hc]
        cases hqs : q.2.shifts d with
        | none =>
          exact absurd ⟨List.mem_range'_1.mpr ⟨h1, by omega⟩, hqs⟩ hc
        | some s => rfl
    · intro e he
      have hni : e ∉ List.range' 1 days := by
        intro hc
        rcases List.mem_range'_1.mp hc with ⟨a, b⟩
        omega
      rw [fshift e, if_neg (fun hc => hni hc.1)]
      exact hg.inRange e he

/-! ## The flattened schedule -/

lemma mem_entriesFor {days : Nat} {p : Nat × StaffState} {e : ScheduleEntry}
    (h : e ∈ entriesFor days p) :
    e.staff_id = p.1 ∧ e.date ∈ List.range' 1 days ∧
      p.2.shifts e.date = some e.shift_type ∧ e.name = p.2.name := by
  rcases List.mem_filterMap.mp h with ⟨d, hd, hde⟩
  cases hs : p.2.shifts d with
  | none => rw [hs] at hde; cases hde
  | some t =>
    rw [hs] at hde
    simp only [Option.some.injEq] at hde
    rw [← hde]
    exact ⟨rfl, hd, by rw [hs], rfl⟩

lemma mem_flatten {days : Nat} {ss : StateMap} {e : ScheduleEntry}
    (h : e ∈ flatten days ss) :
    ∃ p ∈ ss, e.staff_id = p.1 ∧ e.date ∈ List.range' 1 days ∧
      p.2.shifts e.date = some e.shift_type := by
  rcases List.mem_flatten.mp h with ⟨block, hb, he⟩
  rcases List.mem_map.mp hb with ⟨p, hp, hpe⟩
  rw [← hpe] at he
  obtain ⟨h1, h2, h3, _⟩ := mem_entriesFor he
  exact ⟨p, hp, h1, h2, h3⟩

lemma filterMap_length_all_some {α β : Type} (f : α → Option β) :
    ∀ l : List α, (∀ x ∈ l, (f x).isSome = true) →
      (l.filterMap f).length = l.length := by
  intro l
  induction l with
  | nil => intro _; rfl
  | cons a l ih =>
    intro hall
    rw [List.filterMap_cons]
    cases hf : f a with
    | none =>
      have := hall a (List.mem_cons_self a l)
      rw [hf] at this
      cases this
    | some b =>
      simp only [List.length_cons]
      rw [ih (fun x hx => hall x (List.mem_cons_of_mem a hx))]

lemma entriesFor_length {days : Nat} {p : Nat × StaffState}
    (hc : ∀ d, 1 ≤ d → d ≤ days → (p.2.shifts d).isSome = true) :
    (entriesFor days p).length = days := by
  rw [entriesFor, filterMap_length_all_some _ _ ?_, List.length_range']
  intro d hd
  rcases List.mem_range'_1.mp hd with ⟨h1, h2⟩
  have := hc d h1 (by omega)
  cases hs : p.2.shifts d with
  | none => rw [hs] at this; cases this
  | some t => rfl

lemma flatten_length {days : Nat} {ss : StateMap}
    (hc : ∀ p ∈ ss, ∀ d, 1 ≤ d → d ≤ days → (p.2.shifts d).isSome = true) :
    (flatten days ss).length = ss.length * days := by
  induction ss with
  | nil => simp [flatten]
  | cons q ss ih =>
    have hq : (entriesFor days q).length = days :=
      entriesFor_length (hc q (List.mem_cons_self q ss))
    have hrest := ih (fun p hp => hc p (List.mem_cons_of_mem q hp))
    rw [flatten, List.map_cons, List.flatten_cons, List.length_append, hq]
    rw [flatten] at hrest
    rw [hrest, List.length_cons]
    ring

lemma countP_entriesFor_ne {days : Nat} {q : Nat × StaffState} {id d : Nat}
    (hne : q.1 ≠ id) :
    (entriesFor days q).countP (fun e => e.staff_id == id && e.date == d) = 0 := by
  rw [List.countP_eq_zero]
  intro e he
  obtain ⟨h1, _, _, _⟩ := mem_entriesFor he
  simp only [Bool.and_eq_true, beq_iff_eq]
  intro hc
  exact hne (h1 ▸ hc.1)

lemma countP_entriesFor_eq {days : Nat} {q : Nat × StaffState} {id d : Nat}
    (hq : q.1 = id) (h1 : 1 ≤ d) (h2 : d ≤ days)
    (hc : ∀ e, 1 ≤ e → e ≤ days → (q.2.shifts e).isSome = true) :
    (entriesFor days q).countP (fun e => e.staff_id == id && e.date == d) = 1 := by
  have aux : ∀ l : List Nat, (∀ x ∈ l, 1 ≤ x ∧ x ≤ days) →
      (l.filterMap (fun e =>
        match q.2.shifts e with
        | some t => some ({ date := e, shift_type := t, staff_id := q.1,
                            name := q.2.name } : ScheduleEntry)
        | none => none)).countP (fun e => e.staff_id == id && e.date == d) =
        l.count d := by
    intro l
    induction l with
    | nil => intro _; rfl
    | cons a l ih =>
      intro hall
      obtain ⟨ha1, ha2⟩ := hall a (List.mem_cons_self a l)
      rw [List.filterMap_cons]
      cases hs : q.2.shifts a with
      | none =>
        have := hc a ha1 ha2
        rw [hs] at this
        cases this
      | some t =>
        rw [List.countP_cons, List.count_cons,
          ih (fun x hx => hall x (List.mem_cons_of_mem a hx))]
        congr 1
        by_cases had : a = d
        · subst had
          simp [hq]
        · have had2 : d ≠ a := fun hc => had hc.symm
          simp [had, had2]
  rw [entriesFor, aux (List.range' 1 days) ?_]
  · refine List.count_eq_one_of_mem (List.nodup_range' 1 days) ?_
    exact List.mem_range'_1.mpr ⟨h1, by omega⟩
  · intro x hx
    rcases List.mem_range'_1.mp hx with ⟨hx1, hx2⟩
    exact ⟨hx1, by omega⟩

lemma countP_flatten_zero {days : Nat} {ss : StateMap} {id d : Nat}
    (h : ∀ p ∈ ss, p.1 ≠ id) :
    (flatten days ss).countP (fun e => e.staff_id == id && e.date == d) = 0 := by
  induction ss with
  | nil => rfl
  | cons q ss ih =>
    rw [flatten, List.map_cons, List.flatten_cons, List.countP_append]
    rw [countP_entriesFor_ne (h q (List.mem_cons_self q ss))]
    have := ih (fun p hp => h p (List.mem_cons_of_mem q hp))
    rw [flatten] at this
    rw [this]

lemma countP_flatten_one {days : Nat} {ss : StateMap} {id d : Nat}
    (hnd : (ss.map Prod.fst).Nodup) (hid : id ∈ ss.map Prod.fst)
    (h1 : 1 ≤ d) (h2 : d ≤ days)
    (hc : ∀ p ∈ ss, ∀ e, 1 ≤ e → e ≤ days → (p.2.shifts e).isSome = true) :
    (flatten days ss).countP (fun e => e.staff_id == id && e.date == d) = 1 := by
  induction ss with
  | nil => simp at hid
  | cons q ss ih =>
    rw [List.map_cons, List.nodup_cons] at hnd
    rw [flatten, List.map_cons, List.flatten_cons, List.countP_append]
    rcases List.mem_cons.mp hid with hq | hq
    · rw [countP_entriesFor_eq hq.symm h1 h2
        (hc q (List.mem_cons_self q ss))]
      have hz : (flatten days ss).countP
          (fun e => e.staff_id == id && e.date == d) = 0 := by
        refine countP_flatten_zero ?_
        intro p hp hc2
        exact hnd.1 (hq ▸ hc2 ▸ List.mem_map.mpr ⟨p, hp, rfl⟩)
      rw [flatten] at hz
      rw [hz]
    · have hqne : q.1 ≠ id := by
        intro hc2
        exact hnd.1 (hc2 ▸ hq)
      rw [countP_entriesFor_ne hqne]
      have := ih hnd.2 hq (fun p hp => hc p (List.mem_cons_of_mem q hp))
      rw [flatten] at this
      rw [this]

/-! ## Claim theorems about the allocation engine -/

/-- C2: in the final schedule, no staff member ever has DAY on the date
immediately following a NIGHT: for any two schedule entries of the same
staff member on consecutive dates, NIGHT on the first rules out DAY on the
second. -/
theorem C2_no_night_then_day (rules : Rules) (cfg : Config) (isWH : Nat → Bool)
    (days : Nat) (roster : List StaffRow) (e1 e2 : ScheduleEntry)
    (h1 : e1 ∈ (generateSchedule rules cfg isWH days roster).schedule)
    (h2 : e2 ∈ (generateSchedule rules cfg isWH days roster).schedule)
    (hid : e2.staff_id = e1.staff_id) (hd : e2.date = e1.date + 1)
    (hN : e1.shift_type = ShiftType.NIGHT) : e2.shift_type ≠ ShiftType.DAY := by
  intro hD
  have hsched : (generateSchedule rules cfg isWH days roster).schedule =
      flatten days (generateSchedule rules cfg isWH days roster).states := rfl
  rw [hsched] at h1 h2
  obtain ⟨p1, hp1, hid1, hdr1, hs1⟩ := mem_flatten h1
  obtain ⟨p2, hp2, hid2, hdr2, hs2⟩ := mem_flatten h2
  obtain ⟨hkeys, hspec⟩ := generate_states_spec rules cfg isWH days roster
  have hnd : (((generateSchedule rules cfg isWH days roster).states).map
      Prod.fst).Nodup := by
    rw [hkeys]
    exact buildStates_nodup roster
  have heq : p1.2 = p2.2 := by
    have q1 := stateOf_mem_self hnd hp1
    have q2 := stateOf_mem_self hnd hp2
    rw [← hid1] at q1
    rw [← hid2, hid] at q2
    have := q1.symm.trans q2
    simpa using this
  have hnnd := (hspec p1 hp1).2.1
  rw [hN] at hs1
  have hblock := hnnd e1.date hs1
  rw [heq] at hblock
  rw [hd, hD] at hs2
  exact hblock hs2

/-- Witness for C2 at a concrete two-day run: the staff member works NIGHT
on both dates, and the theorem applied to the two entries confirms the
second is not DAY. -/
theorem C2_witness :
    ({ date := 2, shift_type := ShiftType.NIGHT, staff_id := 1, name := "a" } :
      ScheduleEntry).shift_type ≠ ShiftType.DAY :=
  C2_no_night_then_day ⟨6, 8, 45, 54, 160⟩
    ⟨0, 1, 0, false, false, 5, 8, 10⟩ (fun _ => false) 2
    [⟨1, "a", 2, false, true, true, []⟩]
    ⟨1, ShiftType.NIGHT, 1, "a"⟩ ⟨2, ShiftType.NIGHT, 1, "a"⟩
    (by decide) (by decide) rfl rfl rfl

/-- C3: a requested-off date inside the month always ends OFF in the final
states and hence in every schedule row for that staff and date; and the
Risk Evaluator, run over any state map whatsoever, emits the RED
`REQUESTED_OFF_VIOLATION` warning whenever a requested-off date carries a
set non-OFF shift. -/
theorem C3_requested_off (rules : Rules) (cfg : Config) (isWH : Nat → Bool)
    (days : Nat) (roster : List StaffRow) :
    (∀ id d,
      d ∈ requestedOf (generateSchedule rules cfg isWH days roster).states id →
      1 ≤ d → d ≤ days →
      shiftOf (generateSchedule rules cfg isWH days roster).states id d =
        some ShiftType.OFF) ∧
    (∀ e ∈ (generateSchedule rules cfg isWH days roster).schedule,
      e.date ∈ requestedOf (generateSchedule rules cfg isWH days roster).states
        e.staff_id →
      e.shift_type = ShiftType.OFF) ∧
    (∀ (ss : StateMap) (warn : List Warning) (id : Nat) (st : StaffState)
      (d : Nat) (s : ShiftType), (id, st) ∈ ss → d ∈ st.requested_off →
      st.shifts d = some s → s ≠ ShiftType.OFF →
      ({ severity := Severity.RED, code := WarnCode.REQUESTED_OFF_VIOLATION,
         info := [d] } : Warning) ∈ checkLaborRisks rules cfg isWH days ss warn) := by
  obtain ⟨hkeys, hspec⟩ := generate_states_spec rules cfg isWH days roster
  have hnd : (((generateSchedule rules cfg isWH days roster).states).map
      Prod.fst).Nodup := by
    rw [hkeys]
    exact buildStates_nodup roster
  refine ⟨?_, ?_, ?_⟩
  · intro id d hreq h1 h2
    cases hso : stateOf (generateSchedule rules cfg isWH days roster).states id with
    | none =>
      rw [requestedOf, hso] at hreq
      cases hreq
    | some st =>
      rw [requestedOf, hso] at hreq
      rw [shiftOf, hso]
      exact (hspec (id, st) (stateOf_mem hso)).1 d hreq h1 h2
  · intro e he hreq
    have hsched : (generateSchedule rules cfg isWH days roster).schedule =
        flatten days (generateSchedule rules cfg isWH days roster).states := rfl
    rw [hsched] at he
    obtain ⟨p, hp, hid1, hdr, hs⟩ := mem_flatten he
    have hso := stateOf_mem_self hnd hp
    rw [← hid1] at hso
    rw [requestedOf, hso] at hreq
    rcases List.mem_range'_1.mp hdr with ⟨hd1, hd2⟩
    have hoff := (hspec p hp).1 e.date hreq hd1 (by omega)
    rw [hoff] at hs
    exact ((Option.some.injEq _ _).mp hs).symm
  · intro ss warn id st d s hmem hreq hshift hs
    simp only [checkLaborRisks]
    have hin : ({ severity := Severity.RED,
                  code := WarnCode.REQUESTED_OFF_VIOLATION,
                  info := [d] } : Warning) ∈
        warn ++ (ss.map (fun p => staffRisks rules cfg isWH days p.2)).flatten := by
      refine List.mem_append.mpr (Or.inr ?_)
      refine List.mem_flatten.mpr ⟨staffRisks rules cfg isWH days st, ?_, ?_⟩
      · exact List.mem_map.mpr ⟨(id, st), hmem, rfl⟩
      · rw [staffRisks]
        refine List.mem_append.mpr (Or.inl ?_)
        refine List.mem_append.mpr (Or.inl ?_)
        refine List.mem_append.mpr (Or.inl ?_)
        refine List.mem_append.mpr (Or.inl ?_)
        rw [reqOffWarnings]
        refine List.mem_filterMap.mpr ⟨d, hreq, ?_⟩
        rw [hshift]
        dsimp only
        rw [if_neg hs]
    rw [if_neg (List.ne_nil_of_mem hin)]
    exact hin

/-- Witness for C3: a two-day run where staff 1 requested date 2 off ends
with OFF stored there, and the evaluator run on a hand-made state that
works a requested-off date emits the RED violation. -/
theorem C3_witness :
    shiftOf (generateSchedule ⟨6, 8, 45, 54, 160⟩
      ⟨1, 0, 0, false, false, 5, 8, 10⟩ (fun _ => false) 2
      [⟨1, "a", 2, true, true, true, [2]⟩]).states 1 2 = some ShiftType.OFF ∧
    ({ severity := Severity.RED, code := WarnCode.REQUESTED_OFF_VIOLATION,
        info := [1] } : Warning) ∈
      checkLaborRisks ⟨6, 8, 45, 54, 160⟩ ⟨1, 0, 0, false, false, 5, 8, 10⟩
        (fun _ => false) 2
        [(1, { name := "b", desired_days := 1, can_day := true,
               can_night := true, can_weekend_holiday := true,
               requested_off := [1], assigned_days := 1,
               last_shift_date := some 1,
               last_shift_type := some ShiftType.DAY, consecutive_days := 1,
               shifts := fun d => if d = 1 then some ShiftType.DAY else none })]
        [] := by
  constructor
  · exact (C3_requested_off ⟨6, 8, 45, 54, 160⟩ ⟨1, 0, 0, false, false, 5, 8, 10⟩
      (fun _ => false) 2 [⟨1, "a", 2, true, true, true, [2]⟩]).1 1 2
      (by decide) (by decide) (by decide)
  · exact (C3_requested_off ⟨6, 8, 45, 54, 160⟩ ⟨1, 0, 0, false, false, 5, 8, 10⟩
      (fun _ => false) 2 [⟨1, "a", 2, true, true, true, [2]⟩]).2.2 _ [] 1 _ 1
      ShiftType.DAY (List.mem_singleton.mpr rfl) (by decide) rfl (by decide)

/-- C6: with distinct roster ids the schedule has exactly
`roster length × days` rows and every staff/month-date pair appears in
exactly one row. -/
theorem C6_matrix_complete (rules : Rules) (cfg : Config) (isWH : Nat → Bool)
    (days : Nat) (roster : List StaffRow)
    (hnd : (roster.map (fun r => r.staff_id)).Nodup) :
    (generateSchedule rules cfg isWH days roster).schedule.length =
      roster.length * days ∧
    ∀ id ∈ roster.map (fun r => r.staff_id), ∀ d, 1 ≤ d → d ≤ days →
      (generateSchedule rules cfg isWH days roster).schedule.countP
        (fun e => e.staff_id == id && e.date == d) = 1 := by
  obtain ⟨hkeys, hspec⟩ := generate_states_spec rules cfg isWH days roster
  have hndk : (((generateSchedule rules cfg isWH days roster).states).map
      Prod.fst).Nodup := by
    rw [hkeys]
    exact buildStates_nodup roster
  have hcomp : ∀ p ∈ (generateSchedule rules cfg isWH days roster).states,
      ∀ e, 1 ≤ e → e ≤ days → (p.2.shifts e).isSome = true :=
    fun p hp => (hspec p hp).2.2.2.1
  have hsched : (generateSchedule rules cfg isWH days roster).schedule =
      flatten days (generateSchedule rules cfg isWH days roster).states := rfl
  have hkeysr : ((generateSchedule rules cfg isWH days roster).states).map
      Prod.fst = roster.map (fun r => r.staff_id) := by
    rw [hkeys, buildStates_of_nodup hnd, List.map_map]
    rfl
  constructor
  · rw [hsched, flatten_length hcomp]
    have hlen : ((generateSchedule rules cfg isWH days roster).states).length =
        roster.length := by
      have h1 := congrArg List.length hkeysr
      rw [List.length_map, List.length_map] at h1
      exact h1
    rw [hlen]
  · intro id hid d h1 h2
    rw [hsched]
    refine countP_flatten_one hndk ?_ h1 h2 hcomp
    rw [hkeysr]
    exact hid

/-- Witness for C6 at a one-staff, two-day run: 2 = 1 × 2 rows and the
(1, 2) pair appears exactly once. -/
theorem C6_witness :
    (generateSchedule ⟨6, 8, 45, 54, 160⟩ ⟨1, 0, 0, false, false, 5, 8, 10⟩
      (fun _ => false) 2 [⟨1, "a", 1, true, true, true, []⟩]).schedule.length =
      1 * 2 ∧
    (generateSchedule ⟨6, 8, 45, 54, 160⟩ ⟨1, 0, 0, false, false, 5, 8, 10⟩
      (fun _ => false) 2 [⟨1, "a", 1, true, true, true, []⟩]).schedule.countP
      (fun e => e.staff_id == 1 && e.date == 2) = 1 := by
  have h := C6_matrix_complete ⟨6, 8, 45, 54, 160⟩
    ⟨1, 0, 0, false, false, 5, 8, 10⟩ (fun _ => false) 2
    [⟨1, "a", 1, true, true, true, []⟩] (by decide)
  exact ⟨h.1, h.2 1 (by decide) 2 (by decide) (by decide)⟩

/-- C7: at every allocation prefix and in the final states, the
`assigned_days` counter equals the number of worked month dates and never
exceeds `desired_days`. -/
theorem C7_desired_days_bound (rules : Rules) (cfg : Config) (isWH : Nat → Bool)
    (days : Nat) (roster : List StaffRow) :
    (∀ k, k ≤ days → ∀ id,
      assignedOf (allocAfter cfg isWH days roster k).1 id =
        workOf days (allocAfter cfg isWH days roster k).1 id ∧
      assignedOf (allocAfter cfg isWH days roster k).1 id ≤
        desiredOf (allocAfter cfg isWH days roster k).1 id) ∧
    (∀ id,
      assignedOf (generateSchedule rules cfg isWH days roster).states id =
        workOf days (generateSchedule rules cfg isWH days roster).states id ∧
      assignedOf (generateSchedule rules cfg isWH days roster).states id ≤
        desiredOf (generateSchedule rules cfg isWH days roster).states id) := by
  constructor
  · intro k hk id
    obtain ⟨_, hgood⟩ := allocAfter_spec cfg isWH days roster k hk
    cases hso : stateOf (allocAfter cfg isWH days roster k).1 id with
    | none =>
      rw [assignedOf, workOf, desiredOf, hso]
      exact ⟨rfl, Nat.le_refl 0⟩
    | some st =>
      have hg := hgood (id, st) (stateOf_mem hso)
      rw [assignedOf, workOf, desiredOf, hso]
      exact ⟨hg.counter, hg.bounds⟩
  · intro id
    obtain ⟨_, hspec⟩ := generate_states_spec rules cfg isWH days roster
    cases hso : stateOf (generateSchedule rules cfg isWH days roster).states id with
    | none =>
      rw [assignedOf, workOf, desiredOf, hso]
      exact ⟨rfl, Nat.le_refl 0⟩
    | some st =>
      have hg := (hspec (id, st) (stateOf_mem hso)).2.2.1
      rw [assignedOf, workOf, desiredOf, hso]
      exact hg

/-- Witness for C7 at a concrete run (prefix after one date and final). -/
theorem C7_witness :
    (assignedOf (allocAfter ⟨1, 0, 0, false, false, 5, 8, 10⟩ (fun _ => false)
        2 [⟨1, "a", 1, true, true, true, []⟩] 1).1 1 =
      workOf 2 (allocAfter ⟨1, 0, 0, false, false, 5, 8, 10⟩ (fun _ => false)
        2 [⟨1, "a", 1, true, true, true, []⟩] 1).1 1) ∧
    assignedOf (generateSchedule ⟨6, 8, 45, 54, 160⟩
        ⟨1, 0, 0, false, false, 5, 8, 10⟩ (fun _ => false) 2
        [⟨1, "a", 1, true, true, true, []⟩]).states 1 ≤
      desiredOf (generateSchedule ⟨6, 8, 45, 54, 160⟩
        ⟨1, 0, 0, false, false, 5, 8, 10⟩ (fun _ => false) 2
        [⟨1, "a", 1, true, true, true, []⟩]).states 1 := by
  have h := C7_desired_days_bound ⟨6, 8, 45, 54, 160⟩
    ⟨1, 0, 0, false, false, 5, 8, 10⟩ (fun _ => false) 2
    [⟨1, "a", 1, true, true, true, []⟩]
  exact ⟨(h.1 1 (by decide) 1).1, (h.2 1).2⟩

/-- C1 counterexample: with `max_consecutive_workdays = 2` configured, one
staff member (day-capable, desired 4) and a daily demand of one day shift,
the streak counter already equals the configured maximum after date 2, yet
the allocator assigns further DAY shifts on dates 3 and 4 with no OFF break
in between — `_can_assign_shift` never consults the streak. -/
theorem C1_counterexample :
    (⟨1, 0, 0, false, false, 2, 8, 10⟩ : Config).max_consecutive_workdays = 2 ∧
    consecutiveOf (allocAfter ⟨1, 0, 0, false, false, 2, 8, 10⟩ (fun _ => false)
      4 [⟨1, "a", 4, true, false, true, []⟩] 2).1 1 = 2 ∧
    shiftOf (allocAfter ⟨1, 0, 0, false, false, 2, 8, 10⟩ (fun _ => false)
      4 [⟨1, "a", 4, true, false, true, []⟩] 3).1 1 3 = some ShiftType.DAY ∧
    shiftOf (generateSchedule ⟨6, 8, 45, 54, 160⟩
      ⟨1, 0, 0, false, false, 2, 8, 10⟩ (fun _ => false) 4
      [⟨1, "a", 4, true, false, true, []⟩]).states 1 4 = some ShiftType.DAY := by
  exact ⟨rfl, by decide, by decide, by decide⟩

/-- C1 (amended): the rest-rule gate `_can_assign_shift` blocks exactly one
thing — a DAY assignment when a last shift exists and the immediately
preceding date is a set NIGHT.  It performs no max-consecutive-workdays
check, so a staff member at or above the configured streak can still
receive non-OFF assignments (consecutive-day limits only surface as
post-hoc Risk Evaluator warnings). -/
theorem C1_gate_blocks_only_night_day (st : StaffState) (d : Nat) (t : ShiftType) :
    canAssignShift st d t = false ↔
      st.last_shift_date ≠ none ∧ st.shifts (d - 1) = some ShiftType.NIGHT ∧
        t = ShiftType.DAY := by
  unfold canAssignShift
  cases hl : st.last_shift_date with
  | none => simp
  | some x =>
    cases hp : st.shifts (d - 1) with
    | none => simp
    | some prev => cases prev <;> cases t <;> simp

/-- C8: the per-date understaffing warnings.  `SOLO_SHIFT_*` (YELLOW) is
emitted exactly when the fill is below target with exactly one assignee and
the solo flag set; `UNDERSTAFFED_*` (RED, carrying required and actual
counts) exactly when the fill is below target otherwise; nothing is emitted
for a shift whose target is met. -/
theorem C8_understaffing_warnings (cfg : Config) (d mdt mnt dc nc : Nat) :
    (({ severity := Severity.YELLOW, code := WarnCode.SOLO_SHIFT_DAY,
        info := [d] } : Warning) ∈ dateWarnings cfg d mdt mnt dc nc ↔
      dc < mdt ∧ dc = 1 ∧ cfg.allow_solo_day = true) ∧
    (({ severity := Severity.RED, code := WarnCode.UNDERSTAFFED_DAY,
        info := [mdt, dc, d] } : Warning) ∈ dateWarnings cfg d mdt mnt dc nc ↔
      dc < mdt ∧ ¬(dc = 1 ∧ cfg.allow_solo_day = true)) ∧
    (({ severity := Severity.YELLOW, code := WarnCode.SOLO_SHIFT_NIGHT,
        info := [d] } : Warning) ∈ dateWarnings cfg d mdt mnt dc nc ↔
      nc < mnt ∧ nc = 1 ∧ cfg.allow_solo_night = true) ∧
    (({ severity := Severity.RED, code := WarnCode.UNDERSTAFFED_NIGHT,
        info := [mnt, nc, d] } : Warning) ∈ dateWarnings cfg d mdt mnt dc nc ↔
      nc < mnt ∧ ¬(nc = 1 ∧ cfg.allow_solo_night = true)) ∧
    (mdt ≤ dc → ∀ w ∈ dateWarnings cfg d mdt mnt dc nc,
      w.code ≠ WarnCode.SOLO_SHIFT_DAY ∧ w.code ≠ WarnCode.UNDERSTAFFED_DAY) ∧
    (mnt ≤ nc → ∀ w ∈ dateWarnings cfg d mdt mnt dc nc,
      w.code ≠ WarnCode.SOLO_SHIFT_NIGHT ∧
        w.code ≠ WarnCode.UNDERSTAFFED_NIGHT) := by
  unfold dateWarnings
  by_cases h1 : dc < mdt <;> by_cases h2 : nc < mnt <;>
    by_cases h3 : (dc == 1 && cfg.allow_solo_day) = true <;>
    by_cases h4 : (nc == 1 && cfg.allow_solo_night) = true <;>
    simp only [Bool.and_eq_true, beq_iff_eq] at h3 h4 <;>
    simp [h1, h2, h3, h4, Warning.mk.injEq] <;>
    (repeat' constructor) <;>
    (intro hle w hw
     rcases hw with hw | hw <;>
       obtain ⟨hlt, rfl⟩ := hw <;>
       first
         | omega
         | (constructor <;> simp))

/-- Witness for C8: concrete counts exercising a solo-day warning, an
understaffed-night warning, and the no-warning case for a met target. -/
theorem C8_witness :
    ({ severity := Severity.YELLOW, code := WarnCode.SOLO_SHIFT_DAY,
       info := [7] } : Warning) ∈
      dateWarnings ⟨0, 0, 0, true, false, 5, 8, 10⟩ 7 2 1 1 0 ∧
    ({ severity := Severity.RED, code := WarnCode.UNDERSTAFFED_NIGHT,
       info := [1, 0, 7] } : Warning) ∈
      dateWarnings ⟨0, 0, 0, true, false, 5, 8, 10⟩ 7 2 1 1 0 ∧
    (∀ w ∈ dateWarnings ⟨0, 0, 0, true, false, 5, 8, 10⟩ 7 1 1 1 1,
      w.code ≠ WarnCode.SOLO_SHIFT_DAY ∧ w.code ≠ WarnCode.UNDERSTAFFED_DAY) := by
  refine ⟨?_, ?_, ?_⟩
  · exact (C8_understaffing_warnings ⟨0, 0, 0, true, false, 5, 8, 10⟩
      7 2 1 1 0).1.mpr (by decide)
  · exact (C8_understaffing_warnings ⟨0, 0, 0, true, false, 5, 8, 10⟩
      7 2 1 1 0).2.2.2.1.mpr (by decide)
  · exact (C8_understaffing_warnings ⟨0, 0, 0, true, false, 5, 8, 10⟩
      7 1 1 1 1).2.2.2.2.1 (by decide)

/-- C9: every Risk Evaluator threshold comparison is strict.  A consecutive
run equal to the red (resp. yellow) threshold yields no EXCESSIVE (resp.
HIGH) consecutive warning, and an overtime estimate equal to a threshold
yields no overtime warning; warnings appear exactly when the metric
strictly exceeds the threshold (red taking precedence over yellow). -/
theorem C9_strict_thresholds (rules : Rules) (maxFound : Nat) (ot : ℚ) :
    ((∃ w ∈ consecWarnings rules maxFound,
        w.code = WarnCode.EXCESSIVE_CONSECUTIVE) ↔
      rules.max_consecutive_red < maxFound) ∧
    ((∃ w ∈ consecWarnings rules maxFound,
        w.code = WarnCode.HIGH_CONSECUTIVE) ↔
      maxFound ≤ rules.max_consecutive_red ∧
        rules.max_consecutive_yellow < maxFound) ∧
    (maxFound = rules.max_consecutive_red →
      ∀ w ∈ consecWarnings rules maxFound,
        w.code ≠ WarnCode.EXCESSIVE_CONSECUTIVE) ∧
    (maxFound = rules.max_consecutive_yellow →
      ∀ w ∈ consecWarnings rules maxFound,
        w.code ≠ WarnCode.HIGH_CONSECUTIVE) ∧
    ((∃ w ∈ overtimeWarnings rules ot,
        w.code = WarnCode.EXCESSIVE_OVERTIME) ↔ rules.max_overtime_red < ot) ∧
    ((∃ w ∈ overtimeWarnings rules ot, w.code = WarnCode.HIGH_OVERTIME) ↔
      ot ≤ rules.max_overtime_red ∧ rules.max_overtime_yellow < ot) ∧
    (ot = rules.max_overtime_red →
      ∀ w ∈ overtimeWarnings rules ot,
        w.code ≠ WarnCode.EXCESSIVE_OVERTIME) ∧
    (ot = rules.max_overtime_yellow →
      ∀ w ∈ overtimeWarnings rules ot, w.code ≠ WarnCode.HIGH_OVERTIME) := by
  unfold consecWarnings overtimeWarnings
  by_cases h1 : rules.max_consecutive_red < maxFound <;>
    by_cases h2 : rules.max_consecutive_yellow < maxFound <;>
    by_cases h3 : rules.max_overtime_red < ot <;>
    by_cases h4 : rules.max_overtime_yellow < ot <;>
    simp [h1, h2, h3, h4] <;>
    (repeat' constructor) <;>
    first
      | omega
      | linarith

/-- Witness for C9 at concrete thresholds (yellow 2, red 4): a run of
exactly 4 yields no EXCESSIVE warning, a run of exactly 2 yields no HIGH
warning, and overtime exactly at the red threshold yields no warning. -/
theorem C9_witness :
    (∀ w ∈ consecWarnings ⟨2, 4, 10, 20, 160⟩ 4,
      w.code ≠ WarnCode.EXCESSIVE_CONSECUTIVE) ∧
    (∀ w ∈ consecWarnings ⟨2, 4, 10, 20, 160⟩ 2,
      w.code ≠ WarnCode.HIGH_CONSECUTIVE) ∧
    (∀ w ∈ overtimeWarnings ⟨2, 4, 10, 20, 160⟩ 20,
      w.code ≠ WarnCode.EXCESSIVE_OVERTIME) := by
  refine ⟨?_, ?_, ?_⟩
  · exact (C9_strict_thresholds ⟨2, 4, 10, 20, 160⟩ 4 0).2.2.1 rfl
  · exact (C9_strict_thresholds ⟨2, 4, 10, 20, 160⟩ 2 0).2.2.2.1 rfl
  · exact (C9_strict_thresholds ⟨2, 4, 10, 20, 160⟩ 0 20).2.2.2.2.2.2.1 rfl

/-! ## Duplicate staff ids -/

lemma replaceAt_keys (acc : StateMap) (id : Nat) (v : StaffState) :
    (acc.map (fun p => if p.1 == id then (p.1, v) else p)).map Prod.fst =
      acc.map Prod.fst := by
  rw [List.map_map]
  refine List.map_congr_left ?_
  intro p _
  by_cases hp : p.1 = id <;> simp [hp]

lemma stateOf_replaceAt {acc : StateMap} {id : Nat} (v : StaffState)
    (hmem : id ∈ acc.map Prod.fst) :
    stateOf (acc.map (fun p => if p.1 == id then (p.1, v) else p)) id =
      some v := by
  induction acc with
  | nil => simp at hmem
  | cons p l ih =>
    rw [List.map_cons]
    by_cases hp : p.1 == id
    · rw [if_pos hp, stateOf_cons, if_pos hp]
    · rw [if_neg hp, stateOf_cons, if_neg hp]
      apply ih
      rw [List.map_cons, List.mem_cons] at hmem
      rcases hmem with h | h
      · exact absurd (by rw [h]; simp) hp
      · exact h

lemma buildStates_mem_keys (rows : List StaffRow) (r : StaffRow)
    (hr : r ∈ rows) : r.staff_id ∈ (buildStates rows).map Prod.fst := by
  have aux : ∀ (rows2 : List StaffRow) (acc : StateMap) (x : Nat),
      (x ∈ rows2.map (fun r0 => r0.staff_id) ∨ x ∈ acc.map Prod.fst) →
      x ∈ (rows2.foldl (fun acc r0 =>
          if acc.any (fun p => p.1 == r0.staff_id) then
            acc.map (fun p =>
              if p.1 == r0.staff_id then (p.1, initState r0) else p)
          else acc ++ [(r0.staff_id, initState r0)]) acc).map Prod.fst := by
    intro rows2
    induction rows2 with
    | nil =>
      intro acc x hx
      rcases hx with h | h
      · simp at h
      · exact h
    | cons row rest ih =>
      intro acc x hx
      rw [List.foldl_cons]
      by_cases hany : acc.any (fun p => p.1 == row.staff_id) = true
      · rw [if_pos hany]
        refine ih _ x ?_
        rcases hx with h | h
        · rw [List.map_cons, List.mem_cons] at h
          rcases h with h | h
          · right
            rw [replaceAt_keys]
            rcases List.any_eq_true.mp hany with ⟨p, hp, hpid⟩
            rw [h]
            have : p.1 = row.staff_id := by simpa using hpid
            rw [← this]
            exact List.mem_map.mpr ⟨p, hp, rfl⟩
          · exact Or.inl h
        · right
          rw [replaceAt_keys]
          exact h
      · rw [if_neg hany]
        refine ih _ x ?_
        rcases hx with h | h
        · rw [List.map_cons, List.mem_cons] at h
          rcases h with h | h
          · right
            rw [List.map_append]
            refine List.mem_append.mpr (Or.inr ?_)
            rw [h]
            exact List.mem_singleton.mpr rfl
          · exact Or.inl h
        · right
          rw [List.map_append]
          exact List.mem_append.mpr (Or.inl h)
  exact aux rows [] r.staff_id
    (Or.inl (List.mem_map.mpr ⟨r, hr, rfl⟩))

lemma buildStates_length_le (rows : List StaffRow) :
    (buildStates rows).length ≤ rows.length := by
  have aux : ∀ (rows2 : List StaffRow) (acc : StateMap),
      (rows2.foldl (fun acc r0 =>
          if acc.any (fun p => p.1 == r0.staff_id) then
            acc.map (fun p =>
              if p.1 == r0.staff_id then (p.1, initState r0) else p)
          else acc ++ [(r0.staff_id, initState r0)]) acc).length ≤
        acc.length + rows2.length := by
    intro rows2
    induction rows2 with
    | nil => intro acc; simp
    | cons row rest ih =>
      intro acc
      rw [List.foldl_cons]
      by_cases hany : acc.any (fun p => p.1 == row.staff_id) = true
      · rw [if_pos hany]
        have := ih (acc.map (fun p =>
          if p.1 == row.staff_id then (p.1, initState row) else p))
        rw [List.length_map] at this
        calc _ ≤ acc.length + rest.length := this
          _ ≤ acc.length + (row :: rest).length := by simp [List.length_cons]
      · rw [if_neg hany]
        have := ih (acc ++ [(row.staff_id, initState row)])
        rw [List.length_append] at this
        calc _ ≤ acc.length + 1 + rest.length := this
          _ ≤ acc.length + (row :: rest).length := by
            rw [List.length_cons]
            omega
  have h := aux rows []
  rw [List.length_nil, Nat.zero_add] at h
  exact h

lemma buildStates_append_one (rows : List StaffRow) (r : StaffRow) :
    buildStates (rows ++ [r]) =
      if (buildStates rows).any (fun p => p.1 == r.staff_id) then
        (buildStates rows).map (fun p =>
          if p.1 == r.staff_id then (p.1, initState r) else p)
      else buildStates rows ++ [(r.staff_id, initState r)] := by
  unfold buildStates
  rw [List.foldl_append]
  rfl

/-- C10: a roster row whose `staff_id` already occurred raises no error:
the dict keeps the single entry for that id (at its original position) and
silently overwrites it with the whole record of the later row, so the
earlier `desired_days` and capability flags have no effect, and the schedule has
one row-set per distinct id — strictly fewer than
`roster-row-count × days` entries. -/
theorem C10_duplicate_staff_ids (rules : Rules) (cfg : Config)
    (isWH : Nat → Bool) (days : Nat) (pre : List StaffRow) (r2 : StaffRow)
    (hdup : ∃ r1 ∈ pre, r1.staff_id = r2.staff_id) :
    stateOf (buildStates (pre ++ [r2])) r2.staff_id = some (initState r2) ∧
    (buildStates (pre ++ [r2])).map Prod.fst = (buildStates pre).map Prod.fst ∧
    (generateSchedule rules cfg isWH days (pre ++ [r2])).schedule.length =
      (buildStates pre).length * days ∧
    (0 < days →
      (generateSchedule rules cfg isWH days (pre ++ [r2])).schedule.length <
        (pre ++ [r2]).length * days) := by
  obtain ⟨r1, hr1, hid⟩ := hdup
  have hkmem : r2.staff_id ∈ (buildStates pre).map Prod.fst := by
    rw [← hid]
    exact buildStates_mem_keys pre r1 hr1
  have hany : (buildStates pre).any (fun p => p.1 == r2.staff_id) = true := by
    rcases List.mem_map.mp hkmem with ⟨p, hp, hpe⟩
    exact List.any_eq_true.mpr ⟨p, hp, by rw [hpe]; simp⟩
  have happ := buildStates_append_one pre r2
  rw [if_pos hany] at happ
  have hkeq : (buildStates (pre ++ [r2])).map Prod.fst =
      (buildStates pre).map Prod.fst := by
    rw [happ]
    exact replaceAt_keys _ _ _
  obtain ⟨hkeys, hspec⟩ := generate_states_spec rules cfg isWH days (pre ++ [r2])
  have hcomp : ∀ p ∈ (generateSchedule rules cfg isWH days (pre ++ [r2])).states,
      ∀ e, 1 ≤ e → e ≤ days → (p.2.shifts e).isSome = true :=
    fun p hp => (hspec p hp).2.2.2.1
  have hsched : (generateSchedule rules cfg isWH days (pre ++ [r2])).schedule =
      flatten days (generateSchedule rules cfg isWH days (pre ++ [r2])).states :=
    rfl
  have hlen : ((generateSchedule rules cfg isWH days (pre ++ [r2])).states).length =
      (buildStates pre).length := by
    have h1 := congrArg List.length (hkeys.trans hkeq)
    rw [List.length_map, List.length_map] at h1
    exact h1
  have hslen : (generateSchedule rules cfg isWH days (pre ++ [r2])).schedule.length =
      (buildStates pre).length * days := by
    rw [hsched, flatten_length hcomp, hlen]
  refine ⟨?_, hkeq, hslen, ?_⟩
  · rw [happ]
    exact stateOf_replaceAt _ hkmem
  · intro hdays
    rw [hslen, List.length_append, List.length_cons, List.length_nil]
    have hle : (buildStates pre).length ≤ pre.length := buildStates_length_le pre
    calc (buildStates pre).length * days ≤ pre.length * days :=
          Nat.mul_le_mul_right days hle
      _ < (pre.length + (0 + 1)) * days := by
          refine (Nat.mul_lt_mul_right hdays).mpr ?_
          omega

/-- Witness for C10 with two concrete rows sharing id 1: the kept record is
the record of the second row. -/
theorem C10_witness :
    stateOf (buildStates ([⟨1, "a", 3, true, false, true, []⟩] ++
        [⟨1, "b", 2, false, true, false, [1]⟩])) 1 =
      some (initState ⟨1, "b", 2, false, true, false, [1]⟩) ∧
    (generateSchedule ⟨6, 8, 45, 54, 160⟩ ⟨1, 0, 0, false, false, 5, 8, 10⟩
      (fun _ => false) 2 ([⟨1, "a", 3, true, false, true, []⟩] ++
        [⟨1, "b", 2, false, true, false, [1]⟩])).schedule.length <
      ([⟨1, "a", 3, true, false, true, []⟩] ++
        [⟨1, "b", 2, false, true, false, [1]⟩] : List StaffRow).length * 2 := by
  have h := C10_duplicate_staff_ids ⟨6, 8, 45, 54, 160⟩
    ⟨1, 0, 0, false, false, 5, 8, 10⟩ (fun _ => false) 2
    [⟨1, "a", 3, true, false, true, []⟩] ⟨1, "b", 2, false, true, false, [1]⟩
    ⟨⟨1, "a", 3, true, false, true, []⟩, List.mem_singleton.mpr rfl, rfl⟩
  exact ⟨h.1, h.2.2.2 (by decide)⟩

end ShiftGuard
